import Mathlib

/-!
Verification of the Thunder artifact extractor (`src/lib/artifactParser.ts`)
and design-change aggregator (`src/lib/editableRuntime.ts`).

Strings are shallowly embedded as `List Char`.  Each JavaScript regular
expression used by the source is hand-compiled into a dedicated scanner whose
greedy / lazy / backtracking behaviour is spelled out; JS `Map` objects are
embedded as insertion-ordered association lists with `Map.set` update
semantics; the stateful aggregator class is embedded as an explicit
event-step state machine.
-/

namespace Thunder

abbrev Str := List Char

/-! ## Character classes and case folding

JS `\s` (the ASCII part plus NBSP; the remaining Unicode space code points
never occur in the texts considered here), JS `\w` = `[A-Za-z0-9_]`, and
ASCII case folding used to embed the `i` regex flag on the ASCII tag
literals of the source patterns. -/

def isJsWsB (c : Char) : Bool :=
  c == ' ' || c == '\t' || c == '\n' || c == '\r' ||
    c == Char.ofNat 11 || c == Char.ofNat 12 || c == Char.ofNat 160

def isNlB (c : Char) : Bool := c == '\n'

def isWordB (c : Char) : Bool :=
  (('a' ≤ c && c ≤ 'z') || ('A' ≤ c && c ≤ 'Z') || ('0' ≤ c && c ≤ '9') || c == '_')

def upAscii (c : Char) : Char :=
  if 'a' ≤ c && c ≤ 'z' then Char.ofNat (c.toNat - 32) else c

def downAscii (c : Char) : Char :=
  if 'A' ≤ c && c ≤ 'Z' then Char.ofNat (c.toNat + 32) else c

/-- Case-insensitive match of one concrete pattern character `p` against an
input character `c` (ASCII folding, embedding the regex `i` flag). -/
def ciEq (p c : Char) : Bool :=
  c == p || c == upAscii p || c == downAscii p

/-! ## Generic scanning primitives -/

/-- Strip a literal, case-insensitively (pattern side `lit` is concrete). -/
def stripLitCi : Str → Str → Option Str
  | [], s => some s
  | _ :: _, [] => none
  | p :: ps, c :: cs => if ciEq p c then stripLitCi ps cs else none

/-- Strip a literal, exactly. -/
def stripLit : Str → Str → Option Str
  | [], s => some s
  | _ :: _, [] => none
  | p :: ps, c :: cs => if c = p then stripLit ps cs else none

/-- Lazy `[\s\S]*?` up to the first case-insensitive occurrence of `lit`:
returns the (captured) part before the occurrence and the rest after it. -/
def splitFirstLitCi (lit : Str) : Str → Option (Str × Str)
  | [] =>
    match stripLitCi lit [] with
    | some r => some ([], r)
    | none => none
  | c :: cs =>
    match stripLitCi lit (c :: cs) with
    | some r => some ([], r)
    | none =>
      match splitFirstLitCi lit cs with
      | some (p, r) => some (c :: p, r)
      | none => none

/-- Lazy `[\s\S]*?` up to the first exact occurrence of `lit`. -/
def splitFirstLit (lit : Str) : Str → Option (Str × Str)
  | [] =>
    match stripLit lit [] with
    | some r => some ([], r)
    | none => none
  | c :: cs =>
    match stripLit lit (c :: cs) with
    | some r => some ([], r)
    | none =>
      match splitFirstLit lit cs with
      | some (p, r) => some (c :: p, r)
      | none => none

/-- JS `String.prototype.includes`. -/
def containsSub (needle hay : Str) : Bool :=
  (splitFirstLit needle hay).isSome

/-- Greedy backtracking of a star over a character class: try the longest
number of consumed characters first (`k`, then `k-1`, ... down to `0`),
running the continuation `cont` at each candidate split. -/
def tryGreedyDesc (cont : Nat → Option α) : Nat → Option α
  | 0 => cont 0
  | k + 1 =>
    match cont (k + 1) with
    | some r => some r
    | none => tryGreedyDesc cont k

/-- First match of `mh` at the leftmost position where it succeeds
(`RegExp.prototype.exec` on a fresh regex). -/
def findFirst (mh : Str → Option α) : Str → Option α
  | [] => mh []
  | c :: cs =>
    match mh (c :: cs) with
    | some r => some r
    | none => findFirst mh cs

/-- Global scan (`g`-flag `exec` loop): all leftmost, non-overlapping
matches.  Fuel-driven for structural recursion; every matcher used here
consumes at least one character on success, so fuel `s.length` is exact. -/
def scanAllAux (mh : Str → Option (α × Str)) : Nat → Str → List α
  | 0, _ => []
  | fuel + 1, s =>
    match mh s with
    | some (a, rest) => a :: scanAllAux mh fuel rest
    | none =>
      match s with
      | [] => []
      | _ :: cs => scanAllAux mh fuel cs

def scanAll (mh : Str → Option (α × Str)) (s : Str) : List α :=
  scanAllAux mh s.length s

/-- Global regex replace (`String.prototype.replace` with a `g` regex and a
constant replacement): `mh` returns the rest after the match. -/
def replaceAllAux (mh : Str → Option Str) (repl : Str) : Nat → Str → Str
  | 0, s => s
  | fuel + 1, s =>
    match mh s with
    | some rest => repl ++ replaceAllAux mh repl fuel rest
    | none =>
      match s with
      | [] => []
      | c :: cs => c :: replaceAllAux mh repl fuel cs

def replaceAll (mh : Str → Option Str) (repl : Str) (s : Str) : Str :=
  replaceAllAux mh repl s.length s

/-! ## JS helpers: trim, insertion-ordered Map -/

/-- JS `String.prototype.trim`. -/
def jsTrim (s : Str) : Str :=
  ((s.dropWhile isJsWsB).reverse.dropWhile isJsWsB).reverse

/-- JS `Map.prototype.set`: update in place keeping first-insertion order,
else append. -/
def mapSet [DecidableEq κ] : List (κ × β) → κ → β → List (κ × β)
  | [], k, v => [(k, v)]
  | (k', v') :: rest, k, v =>
    if k' = k then (k, v) :: rest else (k', v') :: mapSet rest k v

/-- JS `Map.prototype.get` (first binding wins; keys are unique anyway). -/
def mapGet [DecidableEq κ] : List (κ × β) → κ → Option β
  | [], _ => none
  | (k', v) :: rest, k => if k' = k then some v else mapGet rest k

/-! ## The regex patterns of `artifactParser.ts`, hand-compiled

Each pattern of the source `PATTERNS` table becomes one matcher attempting a
match at the start of the input and returning the captures together with the
rest of the input after the match.  Stars followed by a literal their class
cannot contain are deterministic; the genuinely backtracking spots (the
leading `[^>]*` of `boltArtifact`, the optional `filePath` group of
`boltAction`, the `\s*` before a path capture) are compiled explicitly. -/

def notGtB (c : Char) : Bool := c != '>'
def notQuoteB (c : Char) : Bool := c != '"'
def notNlB (c : Char) : Bool := c != '\n'

/-- Captures of one `boltAction` match. -/
structure ActM where
  ty : Str
  path : Option Str
  content : Str
deriving DecidableEq, Repr

/-- Tail of the `boltAction` pattern after the optional group:
`[^>]*>([\s\S]*?)</boltAction>`. -/
def boltActionTail (t : Str) : Option (Str × Str) :=
  match stripLit ">".data (t.dropWhile notGtB) with
  | none => none
  | some t2 => splitFirstLitCi "</boltAction>".data t2

/-- The optional group `(?:\s+filePath="([^"]+)")?` of `boltAction`
together with the pattern remainder behind it; on success returns the
captured path, the captured content and the rest after the match. -/
def boltActionGroup (s5 : Str) : Option (Str × Str × Str) :=
  if (s5.takeWhile isJsWsB).isEmpty then none
  else
    match stripLitCi "filePath=\"".data (s5.dropWhile isJsWsB) with
    | none => none
    | some u1 =>
      if (u1.takeWhile notQuoteB).isEmpty then none
      else
        match stripLit "\"".data (u1.dropWhile notQuoteB) with
        | none => none
        | some u3 =>
          match boltActionTail u3 with
          | some (content, rest) => some (u1.takeWhile notQuoteB, content, rest)
          | none => none

/-- One match attempt at the start of `s` of
`<boltAction\s+type="(\w+)"(?:\s+filePath="([^"]+)")?[^>]*>([\s\S]*?)</boltAction>`
(flags `gi`).  The optional group is tried first; if the remainder then
fails, the regex falls back to the group-absent alternative. -/
def matchBoltActionAt (s : Str) : Option (ActM × Str) :=
  match stripLitCi "<boltAction".data s with
  | none => none
  | some s1 =>
    if (s1.takeWhile isJsWsB).isEmpty then none
    else
      match stripLitCi "type=\"".data (s1.dropWhile isJsWsB) with
      | none => none
      | some s3 =>
        if (s3.takeWhile isWordB).isEmpty then none
        else
          match stripLit "\"".data (s3.dropWhile isWordB) with
          | none => none
          | some s5 =>
            match boltActionGroup s5 with
            | some (p, content, rest) =>
              some (⟨s3.takeWhile isWordB, some p, content⟩, rest)
            | none =>
              match boltActionTail s5 with
              | some (content, rest) => some (⟨s3.takeWhile isWordB, none, content⟩, rest)
              | none => none

/-- Continuation of the `boltArtifact` pattern after the backtracking
`[^>]*`: `title="([^"]*)"[^>]*>([\s\S]*?)</boltArtifact>`. -/
def boltArtifactCont (s : Str) : Option ((Str × Str) × Str) :=
  match stripLitCi "title=\"".data s with
  | none => none
  | some s1 =>
    match stripLit "\"".data (s1.dropWhile notQuoteB) with
    | none => none
    | some s2 =>
      match stripLit ">".data (s2.dropWhile notGtB) with
      | none => none
      | some s3 =>
        match splitFirstLitCi "</boltArtifact>".data s3 with
        | some (body, rest) => some ((s1.takeWhile notQuoteB, body), rest)
        | none => none

/-- One match attempt at the start of `s` of
`<boltArtifact[^>]*title="([^"]*)"[^>]*>([\s\S]*?)</boltArtifact>` (flags
`gi`); the leading `[^>]*` backtracks greedily. -/
def matchBoltArtifactAt (s : Str) : Option ((Str × Str) × Str) :=
  match stripLitCi "<boltArtifact".data s with
  | none => none
  | some s1 =>
    tryGreedyDesc (fun k => boltArtifactCont (s1.drop k)) (s1.takeWhile notGtB).length

/-- One match attempt at the start of `s` of
`<file\s+path="([^"]+)"[^>]*>([\s\S]*?)</file>` (flags `gi`). -/
def matchLovableAt (s : Str) : Option ((Str × Str) × Str) :=
  match stripLitCi "<file".data s with
  | none => none
  | some s1 =>
    if (s1.takeWhile isJsWsB).isEmpty then none
    else
      match stripLitCi "path=\"".data (s1.dropWhile isJsWsB) with
      | none => none
      | some s2 =>
        if (s2.takeWhile notQuoteB).isEmpty then none
        else
          match stripLit "\"".data (s2.dropWhile notQuoteB) with
          | none => none
          | some s3 =>
            match stripLit ">".data (s3.dropWhile notGtB) with
            | none => none
            | some s5 =>
              match splitFirstLitCi "</file>".data s5 with
              | some (content, rest) => some ((s2.takeWhile notQuoteB, content), rest)
              | none => none

/-- One match attempt at the start of `s` of
``` ```(\w+):([^\n]+)\n([\s\S]*?)``` ``` (flag `g`, case-sensitive);
captures are the path and the content. -/
def matchCursorAt (s : Str) : Option ((Str × Str) × Str) :=
  match stripLit "```".data s with
  | none => none
  | some s1 =>
    if (s1.takeWhile isWordB).isEmpty then none
    else
      match stripLit ":".data (s1.dropWhile isWordB) with
      | none => none
      | some s2 =>
        if (s2.takeWhile notNlB).isEmpty then none
        else
          match stripLit "\n".data (s2.dropWhile notNlB) with
          | none => none
          | some s3 =>
            match splitFirstLit "```".data s3 with
            | some (content, rest) => some ((s2.takeWhile notNlB, content), rest)
            | none => none

/-- Tail of the `markdownWithPath` pattern after the comment marker:
`\s*filepath:\s*([^\n]+)\n([\s\S]*?)``` `.  The first `\s*` is deterministic
(the following literal starts with a non-space letter); the second `\s*`
genuinely backtracks against `([^\n]+)\n`. -/
def mdPathTail (t : Str) : Option ((Str × Str) × Str) :=
  match stripLitCi "filepath:".data (t.dropWhile isJsWsB) with
  | none => none
  | some t1 =>
    tryGreedyDesc
      (fun k =>
        if ((t1.drop k).takeWhile notNlB).isEmpty then none
        else
          match stripLit "\n".data ((t1.drop k).dropWhile notNlB) with
          | none => none
          | some u1 =>
            match splitFirstLit "```".data u1 with
            | some (content, rest) => some (((t1.drop k).takeWhile notNlB, content), rest)
            | none => none)
      (t1.takeWhile isJsWsB).length

/-- One match attempt at the start of `s` of
``` ```(\w+)\n(?:\/\/|#|<!--)\s*filepath:\s*([^\n]+)\n([\s\S]*?)``` ```
(flags `gi`); the three comment markers have pairwise incompatible heads, so
the ordered alternation needs no cross-alternative retry. -/
def matchMdPathAt (s : Str) : Option ((Str × Str) × Str) :=
  match stripLit "```".data s with
  | none => none
  | some s1 =>
    if (s1.takeWhile isWordB).isEmpty then none
    else
      match stripLit "\n".data (s1.dropWhile isWordB) with
      | none => none
      | some s2 =>
        match stripLit "//".data s2 with
        | some t => mdPathTail t
        | none =>
          match stripLit "#".data s2 with
          | some t => mdPathTail t
          | none =>
            match stripLit "<!--".data s2 with
            | some t => mdPathTail t
            | none => none

/-- One match attempt at the start of `s` of
``` ```(\w+)\n([\s\S]*?)``` ``` (flag `g`); captures the language and the
content. -/
def matchMdBlockAt (s : Str) : Option ((Str × Str) × Str) :=
  match stripLit "```".data s with
  | none => none
  | some s1 =>
    if (s1.takeWhile isWordB).isEmpty then none
    else
      match stripLit "\n".data (s1.dropWhile isWordB) with
      | none => none
      | some s2 =>
        match splitFirstLit "```".data s2 with
        | some (content, rest) => some ((s1.takeWhile isWordB, content), rest)
        | none => none

/-- The ordered alternation `(?:function|const|class)` (pairwise
prefix-incompatible keywords, so first-match is exact). -/
def exportKindAlt (t : Str) : Option Str :=
  match stripLit "function".data t with
  | some u => some u
  | none =>
    match stripLit "const".data t with
    | some u => some u
    | none => stripLit "class".data t

/-- Tail of the export-declaration pattern after the optional `default\s+`:
`(?:function|const|class)\s+(\w+)`. -/
def exportKindTail (t : Str) : Option Str :=
  match exportKindAlt t with
  | none => none
  | some u =>
    if (u.takeWhile isJsWsB).isEmpty then none
    else
      if ((u.dropWhile isJsWsB).takeWhile isWordB).isEmpty then none
      else some ((u.dropWhile isJsWsB).takeWhile isWordB)

/-- The optional `(?:default\s+)?` group followed by the pattern
remainder; tried first, with fallback to the group-absent alternative. -/
def exportDefaultGroup (s2 : Str) : Option Str :=
  match stripLit "default".data s2 with
  | none => none
  | some u =>
    if (u.takeWhile isJsWsB).isEmpty then none
    else exportKindTail (u.dropWhile isJsWsB)

/-- One match attempt at the start of `s` of
`export\s+(?:default\s+)?(?:function|const|class)\s+(\w+)` (no flags); the
captured identifier is returned. -/
def matchExportAt (s : Str) : Option Str :=
  match stripLit "export".data s with
  | none => none
  | some s1 =>
    if (s1.takeWhile isJsWsB).isEmpty then none
    else
      match exportDefaultGroup (s1.dropWhile isJsWsB) with
      | some r => some r
      | none => exportKindTail (s1.dropWhile isJsWsB)

/-! ## The artifact parser (`artifactParser.ts`) -/

/-- Extraction result (`ParsedArtifact` of `types/index.ts`; `title` embeds
the optional `metadata.title`, absent for the non-bolt formats). -/
structure ParsedArtifact where
  files : List (Str × Str)
  commands : List Str
  title : Option Str
deriving DecidableEq, Repr

/-- `EXTENSION_MAP` (lines 23-36). -/
def extensionMap : List (Str × Str) :=
  [("typescript".data, "ts".data), ("javascript".data, "js".data),
   ("typescriptreact".data, "tsx".data), ("javascriptreact".data, "jsx".data),
   ("tsx".data, "tsx".data), ("jsx".data, "jsx".data),
   ("ts".data, "ts".data), ("js".data, "js".data),
   ("css".data, "css".data), ("html".data, "html".data),
   ("json".data, "json".data), ("md".data, "md".data)]

/-- `EXTENSION_MAP[language] || dflt` (the map values are all truthy). -/
def extOr (language dflt : Str) : Str :=
  match mapGet extensionMap language with
  | some e => e
  | none => dflt

/-- `inferFilePath` (lines 39-71). -/
def inferFilePath (code : Str) (language : Str) : Str :=
  if containsSub "export default function App".data code then "src/App.tsx".data
  else if containsSub "createRoot".data code || containsSub "ReactDOM.render".data code then
    "src/main.tsx".data
  else if containsSub "@tailwind".data code || containsSub ":root".data code then
    "src/index.css".data
  else if containsSub "\"dependencies\"".data code && containsSub "\"name\"".data code then
    "package.json".data
  else if containsSub "<!DOCTYPE html>".data code || containsSub "<html".data code then
    "index.html".data
  else if containsSub "defineConfig".data code && containsSub "vite".data code then
    "vite.config.ts".data
  else
    match findFirst matchExportAt code with
    | some name => "src/components/".data ++ name ++ ".".data ++ extOr language "tsx".data
    | none => "src/generated.".data ++ extOr language "txt".data

/-- `parseBoltFormat` (lines 74-105): first `boltArtifact` container, then a
global `boltAction` scan over its body; a `file` action with a path updates
the file map, a `shell` action appends its command. -/
def parseBoltFormat (text : Str) : Option ParsedArtifact :=
  match findFirst matchBoltArtifactAt text with
  | none => none
  | some ((title, body), _) =>
    let acts := scanAll matchBoltActionAt body
    let fc :=
      acts.foldl
        (fun acc a =>
          if a.ty = "file".data then
            match a.path with
            | some p => (mapSet acc.1 p (jsTrim a.content), acc.2)
            | none => acc
          else if a.ty = "shell".data then (acc.1, acc.2 ++ [jsTrim a.content])
          else acc)
        ([], [])
    if fc.1 = [] ∧ fc.2 = [] then none
    else some ⟨fc.1, fc.2, some title⟩

/-- `parseLovableFormat` (lines 108-122). -/
def parseLovableFormat (text : Str) : Option ParsedArtifact :=
  let files := (scanAll matchLovableAt text).foldl (fun m pc => mapSet m pc.1 (jsTrim pc.2)) []
  if files = [] then none else some ⟨files, [], none⟩

/-- `parseCursorFormat` (lines 125-141). -/
def parseCursorFormat (text : Str) : Option ParsedArtifact :=
  let files :=
    (scanAll matchCursorAt text).foldl (fun m pc => mapSet m (jsTrim pc.1) (jsTrim pc.2)) []
  if files = [] then none else some ⟨files, [], none⟩

/-- `parseMarkdownWithPath` (lines 144-160). -/
def parseMarkdownWithPath (text : Str) : Option ParsedArtifact :=
  let files :=
    (scanAll matchMdPathAt text).foldl (fun m pc => mapSet m (jsTrim pc.1) (jsTrim pc.2)) []
  if files = [] then none else some ⟨files, [], none⟩

/-- The non-code language hints skipped by `parseMarkdownBlocks`. -/
def skippedLangs : List Str :=
  ["text".data, "bash".data, "shell".data, "sh".data, "console".data]

/-- `parseMarkdownBlocks` (lines 163-184). -/
def parseMarkdownBlocks (text : Str) : Option ParsedArtifact :=
  let files :=
    (scanAll matchMdBlockAt text).foldl
      (fun m lc =>
        if lc.1 ∈ skippedLangs then m
        else mapSet m (inferFilePath lc.2 lc.1) (jsTrim lc.2))
      []
  if files = [] then none else some ⟨files, [], none⟩

/-- The `if (result && result.files.size > 0) return result` acceptance
test applied by `parseArtifact` to each format. -/
def acceptFiles : Option ParsedArtifact → Option ParsedArtifact
  | some a => if a.files.length > 0 then some a else none
  | none => none

/-- `parseArtifact` (lines 187-220): formats tried in order, each accepted
only if it yields at least one file. -/
def parseArtifact (text : Str) : ParsedArtifact :=
  match acceptFiles (parseBoltFormat text) with
  | some r => r
  | none =>
    match acceptFiles (parseLovableFormat text) with
    | some r => r
    | none =>
      match acceptFiles (parseCursorFormat text) with
      | some r => r
      | none =>
        match acceptFiles (parseMarkdownWithPath text) with
        | some r => r
        | none =>
          match acceptFiles (parseMarkdownBlocks text) with
          | some r => r
          | none => ⟨[], [], none⟩

/-- `PATTERNS.boltAction.exec` loop starting from scan position `i`
(the regex `lastIndex`); when the loop ends, `exec` has returned `null`,
which resets `lastIndex` to `0`. -/
def boltActionExecAll (i : Nat) (text : Str) : List ActM :=
  scanAll matchBoltActionAt (text.drop i)

/-- `parseStreamingArtifact` (lines 223-242), with the shared mutable
`lastIndex` of `PATTERNS.boltAction` made explicit: the function takes the
cursor left by any previous use, resets it (line 228: `lastIndex = 0`), and
returns the cursor state after its own scan loop (the terminating failed
`exec` resets it to `0`). -/
def parseStreamingArtifactS (lastIndex : Nat) (text : Str) :
    (List (Str × Str) × List Str) × Nat :=
  let _ := lastIndex
  let acts := boltActionExecAll 0 text
  let fc :=
    acts.foldl
      (fun acc a =>
        if a.ty = "file".data then
          match a.path with
          | some p => (mapSet acc.1 p (jsTrim a.content), acc.2)
          | none => acc
        else if a.ty = "shell".data then (acc.1, acc.2 ++ [jsTrim a.content])
        else acc)
      ([], [])
  (fc, 0)

/-- One run of `\n{3,}` (greedy, so a maximal newline run of length at
least 3), as used by the `replace(/\n{3,}/g, '\n\n')` cleanup. -/
def nlRunMatch (s : Str) : Option Str :=
  if 3 ≤ (s.takeWhile isNlB).length then some (s.dropWhile isNlB) else none

/-- `extractMessage` (lines 290-303): remove the artifact patterns in source
order, trim, then collapse runs of three or more newlines to one blank
line.  (`markdownWithPath` blocks are already covered by the plain
`markdownBlock` replacement, mirroring the source, which does not apply the
`markdownWithPath` pattern here.) -/
def extractMessage (text : Str) : Str :=
  let m1 := replaceAll (fun s => (matchBoltArtifactAt s).map (·.2)) [] text
  let m2 := replaceAll (fun s => (matchLovableAt s).map (·.2)) [] m1
  let m3 := replaceAll (fun s => (matchCursorAt s).map (·.2)) [] m2
  let m4 := replaceAll (fun s => (matchMdBlockAt s).map (·.2)) [] m3
  let m5 := jsTrim m4
  replaceAll nlRunMatch "\n\n".data m5

/-! ## `fileMapToTree` (lines 245-287)

The source mutates `FileNode` objects that are shared between the `root`
map, the per-level maps and the `children` arrays, so the embedding uses an
explicit store: nodes are identified by numeric ids, maps hold ids, and a
`children` array is a list of ids. -/

/-- The mutable record behind one `FileNode` object. -/
structure NodeData where
  name : Str
  isFile : Bool
  path : Str
  content : Option Str
  children : Option (List Nat)
deriving DecidableEq, Repr

/-- Object store plus allocation counter. -/
structure TreeSt where
  store : List (Nat × NodeData)
  nextId : Nat
deriving Repr

/-- One iteration of the inner `for (let i = 0; ...)` loop of
`fileMapToTree`: create-if-absent at the current level, then (for a
non-final segment) rebuild the next-level map from the folder children and
overwrite `folder.children` with a snapshot `Array.from(nextLevel.values())`
taken at this point.  Returns the updated state, the updated current level
and (for a folder step) the next level. -/
def treeStep (files : List (Str × Str)) (fullPath : Str) (st : TreeSt)
    (level : List (Str × Nat)) (part : Str) (isFile : Bool) (currentPath : Str) :
    TreeSt × List (Str × Nat) × Option (List (Str × Nat)) :=
  let created :=
    match mapGet level part with
    | some _ => (st, level)
    | none =>
      let nd : NodeData :=
        ⟨part, isFile, currentPath, if isFile then mapGet files fullPath else none,
          if isFile then none else some []⟩
      (⟨mapSet st.store st.nextId nd, st.nextId + 1⟩, mapSet level part st.nextId)
  let st1 := created.1
  let level1 := created.2
  if isFile then (st1, level1, none)
  else
    match mapGet level1 part with
    | none => (st1, level1, none)
    | some fid =>
      match mapGet st1.store fid with
      | none => (st1, level1, none)
      | some fd =>
        let kids := match fd.children with | some ks => ks | none => []
        let nextLevel :=
          kids.foldl
            (fun m cid =>
              match mapGet st1.store cid with
              | some cd => mapSet m cd.name cid
              | none => m)
            []
        let fd2 : NodeData :=
          ⟨fd.name, fd.isFile, fd.path, fd.content, some (nextLevel.map (·.2))⟩
        (⟨mapSet st1.store fid fd2, st1.nextId⟩, level1, some nextLevel)

/-- The inner loop over the `/`-separated segments of one path; `prevPath`
accumulates `parts.slice(0, i + 1).join('/')`.  Updates to levels below the
root only matter through the store, so they are dropped on return. -/
def treeLoop (files : List (Str × Str)) (fullPath : Str) :
    TreeSt → List (Str × Nat) → Option Str → List Str → TreeSt × List (Str × Nat)
  | st, level, _, [] => (st, level)
  | st, level, prevPath, part :: rest =>
    let currentPath :=
      match prevPath with
      | none => part
      | some p => p ++ "/".data ++ part
    let isFile := rest = []
    let step := treeStep files fullPath st level part (decide isFile) currentPath
    match step.2.2 with
    | none => (step.1, step.2.1)
    | some nl =>
      let deeper := treeLoop files fullPath step.1 nl (some currentPath) rest
      (deeper.1, step.2.1)

/-- The outer `for (const [path] of files)` loop: thread the store and the
persistent `root` map through every path. -/
def fileMapToTreeSt (files : List (Str × Str)) : TreeSt × List (Str × Nat) :=
  files.foldl
    (fun acc kv => treeLoop files kv.1 acc.1 acc.2 none (kv.1.splitOn '/'))
    (⟨[], 0⟩, [])

/-- The returned (immutable) view of a node tree. -/
inductive FileNode where
  | node (name : Str) (isFile : Bool) (path : Str) (content : Option Str)
      (children : Option (List FileNode)) : FileNode
deriving Repr

/-- Materialise a stored node.  The store is acyclic, so fuel
`store.length + 1` is never exhausted. -/
def buildNode (store : List (Nat × NodeData)) : Nat → Nat → Option FileNode
  | 0, _ => none
  | fuel + 1, nid =>
    match mapGet store nid with
    | none => none
    | some nd =>
      match nd.children with
      | none => some (.node nd.name nd.isFile nd.path nd.content none)
      | some ks =>
        some (.node nd.name nd.isFile nd.path nd.content
          (some (ks.filterMap (buildNode store fuel))))

/-- `fileMapToTree`: run the loops, then materialise
`Array.from(root.values())`. -/
def fileMapToTree (files : List (Str × Str)) : List FileNode :=
  let res := fileMapToTreeSt files
  res.2.filterMap (fun p => buildNode res.1.store (res.1.store.length + 1) p.2)

/-- Full traversal of a tree collecting every file node's full path. -/
def flattenFilePaths : List FileNode → List Str
  | [] => []
  | FileNode.node _ isFile path _ children :: rest =>
    (if isFile then [path] else []) ++
      (match children with | some ks => flattenFilePaths ks | none => []) ++
      flattenFilePaths rest

/-! ## The design-change aggregator (`editableRuntime.ts`, `DesignToCodeEngine`)

Payload values (`Record<string, unknown>`) are embedded as strings — the
only value shape the claims exercise.  The class is embedded as a state
record plus one step function per entry point; the browser event loop is an
explicit event list.  `submissions` logs the prompts handed to `onSendToAI`
(the submission callback), `completed` counts its completions (the code
after the `await`), `previews` logs `onInstantPreview` calls and `errors`
counts `onError` calls. -/

/-- `DesignChange` (`types/index.ts`), with `change.type` kept as a runtime
string so that the `default` switch branch is reachable, as it is in JS. -/
structure DesignChange where
  ty : Str
  elementId : Str
  file : Str
  component : Option Str
  change : List (Str × Str)
  timestamp : Nat
deriving DecidableEq, Repr

/-- A change as passed to `queueChange` (`Omit<DesignChange, 'timestamp'>`). -/
structure ChangeIn where
  ty : Str
  elementId : Str
  file : Str
  component : Option Str
  change : List (Str × Str)
deriving DecidableEq, Repr

/-- JS truthiness of a possibly-undefined string value. -/
def jsTruthy : Option Str → Bool
  | some s => s ≠ []
  | none => false

/-- JS `a || b` on possibly-undefined string values. -/
def jsOrOpt (a b : Option Str) : Option Str :=
  if jsTruthy a then a else b

/-- JS `a || dflt` with a truthy literal default. -/
def jsOrDefault (a : Option Str) (dflt : Str) : Str :=
  if jsTruthy a then a.getD [] else dflt

/-- Template-literal interpolation of a possibly-undefined value
(`undefined` prints as the string `undefined`). -/
def interp : Option Str → Str
  | some s => s
  | none => "undefined".data

def jsonEscapeChar (c : Char) : Str :=
  if c = '"' then ['\\', '"']
  else if c = '\\' then ['\\', '\\']
  else if c = '\n' then ['\\', 'n']
  else if c = '\t' then ['\\', 't']
  else if c = '\r' then ['\\', 'r']
  else [c]

def jsonEscape (s : Str) : Str :=
  s.foldr (fun c acc => jsonEscapeChar c ++ acc) []

/-- `JSON.stringify` on a string-valued record. -/
def jsonStringify (l : List (Str × Str)) : Str :=
  [Char.ofNat 123] ++
    List.intercalate ",".data
      (l.map (fun kv => "\"".data ++ jsonEscape kv.1 ++ "\":\"".data ++ jsonEscape kv.2 ++ "\"".data)) ++
    [Char.ofNat 125]

/-- `describeChange` (lines 440-483). -/
def describeChange (c : DesignChange) : Str :=
  let elementRef :=
    if jsTruthy c.component then
      c.component.getD [] ++ " (".data ++ c.elementId ++ ")".data
    else c.elementId
  if c.ty = "style".data then
    let styles :=
      List.intercalate ", ".data (c.change.map (fun kv => kv.1 ++ ": ".data ++ kv.2))
    "Change styles of \"".data ++ elementRef ++ "\" to: ".data ++ styles
  else if c.ty = "content".data then
    let content := jsOrOpt (mapGet c.change "text".data) (mapGet c.change "content".data)
    "Change content of \"".data ++ elementRef ++ "\" to: \"".data ++ interp content ++ "\"".data
  else if c.ty = "prop".data then
    let props :=
      List.intercalate ", ".data
        (c.change.map (fun kv => kv.1 ++ "=\"".data ++ kv.2 ++ "\"".data))
    "Update props of \"".data ++ elementRef ++ "\": ".data ++ props
  else if c.ty = "add".data then
    let elementType := jsOrDefault (mapGet c.change "type".data) "element".data
    "Add new ".data ++ elementType ++ " inside \"".data ++ elementRef ++ "\"".data
  else if c.ty = "delete".data then
    "Remove element \"".data ++ elementRef ++ "\"".data
  else if c.ty = "move".data then
    let target := mapGet c.change "target".data
    let position := jsOrDefault (mapGet c.change "position".data) "inside".data
    "Move \"".data ++ elementRef ++ "\" ".data ++ position ++ " \"".data ++ interp target ++ "\"".data
  else
    "Update \"".data ++ elementRef ++ "\": ".data ++ jsonStringify c.change

/-- `groupChangesByFile` (lines 399-411). -/
def groupChangesByFile (changes : List DesignChange) : List (Str × List DesignChange) :=
  changes.foldl
    (fun g c =>
      let existing := match mapGet g c.file with | some l => l | none => []
      mapSet g c.file (existing ++ [c]))
    []

/-- `buildPrompt` (lines 414-437). -/
def buildPrompt (grouped : List (Str × List DesignChange)) : Str :=
  let parts : List Str :=
    ["Apply the following design changes to the code:".data, []] ++
      grouped.foldl
        (fun acc fg =>
          acc ++ ["## File: ".data ++ fg.1, []] ++
            fg.2.map (fun c => "- ".data ++ describeChange c) ++ [[]])
        [] ++
      ["Return the updated code using the boltArtifact format. Only include files that changed.".data]
  List.intercalate "\n".data parts

/-- Engine constructor options that influence behaviour. -/
structure EngineCfg where
  debounceMs : Nat
  hasInstantPreview : Bool
deriving Repr

/-- The mutable fields of `DesignToCodeEngine` plus logs of the callback
invocations.  `timerArmed` holds exactly when a scheduled debounce callback
is still pending (after it fires, the stale JS handle is behaviourally
equivalent to `null`: `clearTimeout` on it is a no-op).  `now` embeds
`Date.now()` as a counter. -/
structure EngineSt where
  pending : List DesignChange
  timerArmed : Bool
  isProcessing : Bool
  inFlight : Option (List DesignChange)
  submissions : List Str
  completed : Nat
  previews : List (Str × List (Str × Str))
  errors : Nat
  now : Nat
deriving DecidableEq, Repr

def initEngine : EngineSt := ⟨[], false, false, none, [], 0, [], 0, 0⟩

/-- The synchronous part of `processChanges` (lines 375-390), up to and
including the call of the submission callback `onSendToAI`: the guard, the
atomic queue swap, grouping, prompt building and the submission start. -/
def processChanges (s : EngineSt) : EngineSt :=
  if s.isProcessing ∨ s.pending = [] then s
  else
    let changes := s.pending
    let prompt := buildPrompt (groupChangesByFile changes)
    { s with isProcessing := true, pending := [],
             inFlight := some changes,
             submissions := s.submissions ++ [prompt] }

/-- Resumption after the awaited submission callback settles (lines
391-395): `catch` fires `onError` on rejection, `finally` always clears the
processing flag. -/
def completeSubmission (ok : Bool) (s : EngineSt) : EngineSt :=
  if s.isProcessing then
    { s with isProcessing := false, inFlight := none,
             completed := s.completed + 1,
             errors := if ok then s.errors else s.errors + 1 }
  else s

/-- `queueChange` (lines 348-372): stamp, append, instant preview for style
changes, and debounce reset (cancel-if-present then reschedule). -/
def queueChange (cfg : EngineCfg) (c : ChangeIn) (s : EngineSt) : EngineSt :=
  let fc : DesignChange := ⟨c.ty, c.elementId, c.file, c.component, c.change, s.now⟩
  let s1 := { s with pending := s.pending ++ [fc], now := s.now + 1 }
  let s2 :=
    if c.ty = "style".data ∧ cfg.hasInstantPreview then
      { s1 with previews := s1.previews ++ [(c.elementId, c.change)] }
    else s1
  { s2 with timerArmed := true }

/-- Expiry of the scheduled debounce timer: one-shot, then `processChanges`. -/
def timerFire (s : EngineSt) : EngineSt :=
  if s.timerArmed then processChanges { s with timerArmed := false } else s

/-- `flush` (lines 486-492). -/
def flush (s : EngineSt) : EngineSt :=
  processChanges { s with timerArmed := false }

/-- `clear` (lines 495-501). -/
def clearQ (s : EngineSt) : EngineSt :=
  { s with timerArmed := false, pending := [] }

/-- `getIsProcessing` (lines 509-511). -/
def getIsProcessing (s : EngineSt) : Bool := s.isProcessing

/-- One event of the single-threaded browser event loop acting on the
engine. -/
inductive AggEvent where
  | queue (c : ChangeIn)
  | timer
  | flushEv
  | clearEv
  | complete (ok : Bool)
deriving Repr

def stepEvent (cfg : EngineCfg) (s : EngineSt) : AggEvent → EngineSt
  | .queue c => queueChange cfg c s
  | .timer => timerFire s
  | .flushEv => flush s
  | .clearEv => clearQ s
  | .complete ok => completeSubmission ok s

def runEvents (cfg : EngineCfg) (evs : List AggEvent) : EngineSt :=
  evs.foldl (stepEvent cfg) initEngine

/-! ## Concrete inputs used by the claims -/

/-- A structured-artifact container holding only a shell action. -/
def shellOnlyText : Str :=
  ("<boltArtifact title=\"Setup\"><boltAction type=\"shell\">npm install" ++
    "</boltAction></boltArtifact>").data

/-- The C6 change: elementId `btn-1`, file `src/App.jsx`, type `style`,
change `{color: "#fff"}`. -/
def c6change : ChangeIn :=
  ⟨"style".data, "btn-1".data, "src/App.jsx".data, none, [("color".data, "#fff".data)]⟩

/-- A second style change, used by the C4 interleaving. -/
def c4change : ChangeIn :=
  ⟨"style".data, "btn-2".data, "src/App.jsx".data, none, [("margin".data, "4px".data)]⟩

/-- A `content` change whose payload is missing both the `text` and the
`content` key. -/
def contentNoKeys : DesignChange :=
  ⟨"content".data, "el-1".data, "f.js".data, none, [], 0⟩

/-- A change with an unrecognised `type`. -/
def resizeChange : DesignChange :=
  ⟨"resize".data, "el-1".data, "f.js".data, none, [("w".data, "5".data)], 0⟩

/-! ## C1 — `fileMapToTree` round-trip -/

/-- C1 (code bug): the claim says a full traversal of `fileMapToTree`'s
result reproduces the key set of any file map.  It does not: for the
one-entry map `{"src/App.tsx" ↦ "x"}` the returned tree is a single `src`
folder with an empty children array and no file node at all — the
`folder.children = Array.from(nextLevel.values())` snapshot is taken before
the child is inserted into `nextLevel`, so every nested file is dropped.
The traversal collects no path, while the key set is `{"src/App.tsx"}`. -/
theorem fileMapToTree_drops_nested_file :
    fileMapToTree [("src/App.tsx".data, "x".data)] =
      [FileNode.node "src".data false "src".data none (some [])] ∧
    flattenFilePaths (fileMapToTree [("src/App.tsx".data, "x".data)]) = [] ∧
    ([("src/App.tsx".data, "x".data)].map Prod.fst) = ["src/App.tsx".data] := by
  have htree : fileMapToTree [("src/App.tsx".data, "x".data)] =
      [FileNode.node "src".data false "src".data none (some [])] := rfl
  refine ⟨htree, ?_, rfl⟩
  rw [htree]
  simp [flattenFilePaths]

/-! ## C2 — acceptance of a shell-only structured artifact -/

/-- C2 (counterexample): for a container holding only a shell action,
`parseBoltFormat` succeeds with one command, but `parseArtifact` does not
return that extraction — the `files.size > 0` acceptance test fails, every
later format also fails, and the commands are dropped. -/
theorem parseArtifact_drops_shell_only :
    parseBoltFormat shellOnlyText =
      some ⟨[], ["npm install".data], some "Setup".data⟩ ∧
    parseArtifact shellOnlyText = ⟨[], [], none⟩ := by
  refine ⟨rfl, rfl⟩

/-- C2 (amended): a structured-artifact extraction is returned by
`parseArtifact` (without falling through to any later format) when it
yields at least one *file* action; a container with only shell actions is
not accepted and its commands are lost. -/
theorem parseArtifact_accepts_bolt_with_files (text : Str) (r : ParsedArtifact)
    (h : parseBoltFormat text = some r) (hf : r.files ≠ []) :
    parseArtifact text = r := by
  have hpos : 0 < r.files.length := List.length_pos.mpr hf
  simp [parseArtifact, h, acceptFiles, hpos]

/-- Witness for C2's amended theorem at a concrete one-file container. -/
theorem parseArtifact_accepts_bolt_with_files_witness :
    parseArtifact
        ("<boltArtifact title=\"T\"><boltAction type=\"file\" filePath=\"a.txt\">hi</boltAction></boltArtifact>").data =
      ⟨[("a.txt".data, "hi".data)], [], some "T".data⟩ :=
  parseArtifact_accepts_bolt_with_files _ _ rfl (by decide)

/-! ## C6 — queue then flush produces exactly one submission -/

/-- C6: from the idle engine, `queueChange` of the C6 style change followed
immediately by `flush()` invokes the submission callback exactly once, with
a prompt containing the substrings `src/App.jsx` and `color: #fff`; the
count stays at one after the submission completes. -/
theorem queue_flush_one_submission :
    (runEvents ⟨500, false⟩ [.queue c6change, .flushEv, .complete true]).submissions.length = 1 ∧
    containsSub "src/App.jsx".data
      ((runEvents ⟨500, false⟩ [.queue c6change, .flushEv, .complete true]).submissions.headD []) = true ∧
    containsSub "color: #fff".data
      ((runEvents ⟨500, false⟩ [.queue c6change, .flushEv, .complete true]).submissions.headD []) = true := by
  refine ⟨rfl, rfl, rfl⟩

/-! ## C7 — idempotence of `parseStreamingArtifact` -/

/-- C7: `parseStreamingArtifact` is idempotent despite the shared mutable
scan cursor of the module-level `boltAction` regex: whatever `lastIndex`
the first call leaves behind, a second call on the same unchanged text
returns the identical file map and command list, because the function
resets the cursor before scanning. -/
theorem parseStreamingArtifact_idempotent (lastIndex : Nat) (text : Str) :
    (parseStreamingArtifactS lastIndex text).1 =
      (parseStreamingArtifactS (parseStreamingArtifactS lastIndex text).2 text).1 := rfl

/-! ## C9 — descriptions of malformed change payloads -/

/-- C9 (counterexample): a `content` change whose payload has neither a
`text` nor a `content` key does *not* degrade to the generic fallback
description: the recognised `content` switch branch still applies and
interpolates `undefined`, so the result differs from the fallback. -/
theorem describeChange_content_missing_keys :
    describeChange contentNoKeys =
      "Change content of \"el-1\" to: \"undefined\"".data ∧
    describeChange contentNoKeys ≠
      "Update \"el-1\": ".data ++ jsonStringify contentNoKeys.change := by
  refine ⟨rfl, by decide⟩

/-- C9 (amended): the generic fallback description (`update <target>:
<raw JSON dump of change>`) is produced exactly for changes whose declared
`type` is not one of the six recognised values; recognised types with
missing payload keys instead produce their type-specific description with
`undefined` (or a default) interpolated.  In either case `describeChange`
is total — nothing throws. -/
theorem describeChange_fallback_unrecognised (c : DesignChange)
    (h : c.ty ≠ "style".data ∧ c.ty ≠ "content".data ∧ c.ty ≠ "prop".data ∧
      c.ty ≠ "add".data ∧ c.ty ≠ "delete".data ∧ c.ty ≠ "move".data) :
    describeChange c =
      "Update \"".data ++
        (if jsTruthy c.component then
          c.component.getD [] ++ " (".data ++ c.elementId ++ ")".data
        else c.elementId) ++
        "\": ".data ++ jsonStringify c.change := by
  obtain ⟨h1, h2, h3, h4, h5, h6⟩ := h
  unfold describeChange
  rw [if_neg h1, if_neg h2, if_neg h3, if_neg h4, if_neg h5, if_neg h6]

/-- Witness for C9's amended theorem at an unrecognised `resize` change. -/
theorem describeChange_fallback_unrecognised_witness :
    describeChange resizeChange = "Update \"el-1\": \x7b\"w\":\"5\"\x7d".data := by
  rw [describeChange_fallback_unrecognised resizeChange (by decide)]
  rfl

/-! ## C5 — at most one submission in flight -/

/-- The fields of `queueChange`'s result, in one lemma. -/
theorem queueChange_fields (cfg : EngineCfg) (c : ChangeIn) (s : EngineSt) :
    (queueChange cfg c s).submissions = s.submissions ∧
    (queueChange cfg c s).completed = s.completed ∧
    (queueChange cfg c s).isProcessing = s.isProcessing ∧
    (queueChange cfg c s).inFlight = s.inFlight ∧
    (queueChange cfg c s).pending =
      s.pending ++ [⟨c.ty, c.elementId, c.file, c.component, c.change, s.now⟩] ∧
    (queueChange cfg c s).timerArmed = true := by
  unfold queueChange
  split_ifs <;> exact ⟨rfl, rfl, rfl, rfl, rfl, rfl⟩

/-- The early return of `processChanges` when a submission is in flight. -/
theorem processChanges_guard (s : EngineSt) (h : s.isProcessing = true) :
    processChanges s = s := by
  unfold processChanges
  rw [if_pos (Or.inl (by simp [h]))]

/-- The early return of `processChanges` on an empty queue. -/
theorem processChanges_empty (s : EngineSt) (h : s.pending = []) :
    processChanges s = s := by
  unfold processChanges
  rw [if_pos (Or.inr h)]

/-- The submitting branch of `processChanges`. -/
theorem processChanges_submits (s : EngineSt)
    (h : s.isProcessing = false) (hp : s.pending ≠ []) :
    processChanges s =
      { s with isProcessing := true, pending := [], inFlight := some s.pending,
               submissions := s.submissions ++ [buildPrompt (groupChangesByFile s.pending)] } := by
  unfold processChanges
  rw [if_neg]
  intro hor
  rcases hor with hb | hb
  · rw [h] at hb
    exact Bool.false_ne_true hb
  · exact hp hb

/-- The resumption branch of `completeSubmission` for an in-flight state. -/
theorem completeSubmission_resumes (ok : Bool) (s : EngineSt) (h : s.isProcessing = true) :
    completeSubmission ok s =
      { s with isProcessing := false, inFlight := none, completed := s.completed + 1,
               errors := if ok then s.errors else s.errors + 1 } := by
  unfold completeSubmission
  rw [if_pos (by simp [h])]

/-- Submission bookkeeping invariant: the number of started submissions
exceeds the number of completed ones exactly by the processing flag. -/
def submInv (s : EngineSt) : Prop :=
  s.submissions.length = s.completed + (if s.isProcessing then 1 else 0)

theorem processChanges_submInv (s : EngineSt) (h : submInv s) :
    submInv (processChanges s) := by
  cases hb : s.isProcessing with
  | true => rw [processChanges_guard s hb]; exact h
  | false =>
    cases hp : s.pending with
    | nil => rw [processChanges_empty s hp]; exact h
    | cons c l =>
      rw [processChanges_submits s hb (by rw [hp]; exact List.cons_ne_nil c l)]
      unfold submInv at h ⊢
      simp only [hb, if_false, Bool.false_eq_true] at h
      simp [h]

theorem stepEvent_submInv (cfg : EngineCfg) (s : EngineSt) (e : AggEvent)
    (h : submInv s) : submInv (stepEvent cfg s e) := by
  cases e with
  | queue c =>
    have hf := queueChange_fields cfg c s
    unfold stepEvent
    unfold submInv at h ⊢
    rw [hf.1, hf.2.1, hf.2.2.1]
    exact h
  | timer =>
    unfold stepEvent timerFire
    split_ifs
    · exact processChanges_submInv _ h
    · exact h
  | flushEv => exact processChanges_submInv _ h
  | clearEv =>
    unfold stepEvent clearQ
    unfold submInv at h ⊢
    simpa using h
  | complete ok =>
    cases hb : s.isProcessing with
    | true =>
      show submInv (completeSubmission ok s)
      rw [completeSubmission_resumes ok s hb]
      unfold submInv at h ⊢
      simp only [hb, if_true] at h
      simp [h]
    | false =>
      show submInv (completeSubmission ok s)
      unfold completeSubmission
      rw [if_neg (by simp [hb])]
      exact h

theorem runEvents_submInv (cfg : EngineCfg) (evs : List AggEvent) :
    submInv (runEvents cfg evs) := by
  unfold runEvents
  have hgen : ∀ s, submInv s → submInv (evs.foldl (stepEvent cfg) s) := by
    induction evs with
    | nil => intro s h; exact h
    | cons e evs ih => intro s h; exact ih _ (stepEvent_submInv cfg s e h)
  exact hgen initEngine (by simp [submInv, initEngine])

/-- C5: at every reachable engine state at most one submission callback is
in flight — the number of started submissions never exceeds the number of
completed ones by more than one — and a `flush()` (or a debounce expiry)
that occurs while `getIsProcessing()` is true starts no new submission and
leaves the in-flight batch untouched. -/
theorem at_most_one_submission_in_flight :
    (∀ cfg evs, (runEvents cfg evs).submissions.length ≤ (runEvents cfg evs).completed + 1) ∧
    (∀ s : EngineSt, getIsProcessing s = true →
      (flush s).submissions = s.submissions ∧ (flush s).inFlight = s.inFlight ∧
      (timerFire s).submissions = s.submissions ∧ (timerFire s).inFlight = s.inFlight) := by
  constructor
  · intro cfg evs
    have h := runEvents_submInv cfg evs
    unfold submInv at h
    split at h <;> omega
  · intro s hs
    have hs' : s.isProcessing = true := hs
    have hguard : ∀ t : EngineSt, t.isProcessing = true → processChanges t = t := by
      intro t ht
      unfold processChanges
      rw [if_pos (Or.inl (by simp [ht]))]
    have hfl : flush s = { s with timerArmed := false } := hguard _ hs'
    have htm : timerFire s = s ∨ timerFire s = { s with timerArmed := false } := by
      unfold timerFire
      split_ifs
      · exact Or.inr (hguard _ hs')
      · exact Or.inl rfl
    refine ⟨by rw [hfl], by rw [hfl], ?_, ?_⟩ <;> rcases htm with h | h <;> rw [h]

/-- Witness for C5 at a state with a submission in flight. -/
theorem at_most_one_submission_in_flight_witness :
    (runEvents ⟨500, false⟩ [.queue c6change, .flushEv]).submissions.length ≤
      (runEvents ⟨500, false⟩ [.queue c6change, .flushEv]).completed + 1 ∧
    (flush (runEvents ⟨500, false⟩ [.queue c6change, .flushEv])).submissions =
      (runEvents ⟨500, false⟩ [.queue c6change, .flushEv]).submissions :=
  ⟨at_most_one_submission_in_flight.1 ⟨500, false⟩ [.queue c6change, .flushEv],
    (at_most_one_submission_in_flight.2 (runEvents ⟨500, false⟩ [.queue c6change, .flushEv])
      (by decide)).1⟩

/-! ## C4 — changes queued while a submission is in flight -/

set_option maxRecDepth 8192 in
/-- C4 (counterexample): in the interleaving queue–flush–queue–timer–
complete, the second change's own debounce expiry falls inside the
in-flight window, so `processChanges` returns immediately; after the
submission completes no further `queueChange` or `flush` occurs, and the
change is never submitted: one submission happened, its prompt does not
mention `btn-2`, the timer is spent and the change still sits in the
pending queue — contradicting the claim that it is picked up and submitted
by its own debounce expiry in this interleaving. -/
theorem queued_change_lost_when_timer_fires_in_flight :
    (runEvents ⟨500, false⟩
        [.queue c6change, .flushEv, .queue c4change, .timer, .complete true]).submissions.length = 1 ∧
    containsSub "btn-2".data
      ((runEvents ⟨500, false⟩
        [.queue c6change, .flushEv, .queue c4change, .timer, .complete true]).submissions.headD []) = false ∧
    (runEvents ⟨500, false⟩
        [.queue c6change, .flushEv, .queue c4change, .timer, .complete true]).pending.map
      DesignChange.elementId = ["btn-2".data] ∧
    (runEvents ⟨500, false⟩
        [.queue c6change, .flushEv, .queue c4change, .timer, .complete true]).timerArmed = false := by
  exact ⟨by decide, by decide, by decide, by decide⟩

/-- C4 (amended): a change queued while a submission is in flight is not
added to the in-flight batch; it accumulates in a fresh pending queue and
is submitted by a debounce expiry (or flush) that occurs *after* the
in-flight submission completes.  (If its only debounce expiry fires before
the completion, it stays pending and is not submitted, as the
counterexample shows.) -/
theorem queued_change_isolated_and_submitted_after_completion
    (cfg : EngineCfg) (s : EngineSt) (c : ChangeIn) (h : s.isProcessing = true) :
    (queueChange cfg c s).inFlight = s.inFlight ∧
    (queueChange cfg c s).pending =
      s.pending ++ [⟨c.ty, c.elementId, c.file, c.component, c.change, s.now⟩] ∧
    (timerFire (completeSubmission true (queueChange cfg c s))).submissions =
      s.submissions ++
        [buildPrompt (groupChangesByFile
          (s.pending ++ [⟨c.ty, c.elementId, c.file, c.component, c.change, s.now⟩]))] := by
  refine ⟨?_, ?_, ?_⟩
  · unfold queueChange
    split_ifs <;> rfl
  · unfold queueChange
    split_ifs <;> rfl
  · unfold queueChange timerFire completeSubmission processChanges
    split_ifs with h1 h2 h3 h4 h5 <;> first
      | rfl
      | simp_all

/-- Witness for C4's amended theorem at a concrete in-flight state. -/
theorem queued_change_isolated_witness :
    (timerFire (completeSubmission true
        (queueChange ⟨500, false⟩ c4change
          (runEvents ⟨500, false⟩ [.queue c6change, .flushEv])))).submissions =
      (runEvents ⟨500, false⟩ [.queue c6change, .flushEv]).submissions ++
        [buildPrompt (groupChangesByFile
          ((runEvents ⟨500, false⟩ [.queue c6change, .flushEv]).pending ++
            [⟨c4change.ty, c4change.elementId, c4change.file, c4change.component,
              c4change.change, (runEvents ⟨500, false⟩ [.queue c6change, .flushEv]).now⟩]))] :=
  (queued_change_isolated_and_submitted_after_completion ⟨500, false⟩
    (runEvents ⟨500, false⟩ [.queue c6change, .flushEv]) c4change (by decide)).2.2

/-! ## C8 — `extractMessage` cleanup properties -/

/-- Length of the leading newline run. -/
def nlPre (s : Str) : Nat := (s.takeWhile isNlB).length

/-- Does the string start with three newlines? -/
def startsTriple : Str → Bool
  | a :: b :: c :: _ => a == '\n' && b == '\n' && c == '\n'
  | _ => false

/-- Does the string contain three consecutive newlines anywhere? -/
def hasTriple : Str → Bool
  | [] => false
  | c :: cs => startsTriple (c :: cs) || hasTriple cs

theorem nlPre_cons (c : Char) (cs : Str) :
    nlPre (c :: cs) = if isNlB c then nlPre cs + 1 else 0 := by
  unfold nlPre
  cases h : isNlB c <;> simp [List.takeWhile_cons, h]

theorem nlPre_dropWhile (s : Str) : nlPre (s.dropWhile isNlB) = 0 := by
  induction s with
  | nil => rfl
  | cons c cs ih =>
    cases h : isNlB c with
    | true => simpa [List.dropWhile_cons, h] using ih
    | false => simp [List.dropWhile_cons, h, nlPre_cons]

theorem nlPre_le_length (s : Str) : nlPre s ≤ s.length := by
  unfold nlPre
  exact (List.takeWhile_sublist isNlB).length_le

theorem dropWhile_len_nl (s : Str) :
    (s.dropWhile isNlB).length + nlPre s = s.length := by
  have h := congrArg List.length (List.takeWhile_append_dropWhile isNlB s)
  unfold nlPre
  simp only [List.length_append] at h
  omega

theorem nlRunMatch_none (s : Str) (h : nlPre s < 3) : nlRunMatch s = none := by
  unfold nlPre at h
  unfold nlRunMatch
  rw [if_neg]
  omega

theorem nlRunMatch_some (s : Str) (h : 3 ≤ nlPre s) :
    nlRunMatch s = some (s.dropWhile isNlB) := by
  unfold nlPre at h
  unfold nlRunMatch
  rw [if_pos h]

theorem startsTriple_le (u : Str) (h : startsTriple u = true) : 3 ≤ nlPre u := by
  cases u with
  | nil => simp [startsTriple] at h
  | cons a u1 =>
    cases u1 with
    | nil => simp [startsTriple] at h
    | cons b u2 =>
      cases u2 with
      | nil => simp [startsTriple] at h
      | cons c t =>
        have h3 : (a = '\n' ∧ b = '\n') ∧ c = '\n' := by
          simpa [startsTriple] using h
        obtain ⟨⟨h1, h2⟩, h3⟩ := h3
        subst h1; subst h2; subst h3
        simp [nlPre_cons, isNlB]

theorem startsTriple_false (u : Str) (h : nlPre u < 3) : startsTriple u = false := by
  cases hs : startsTriple u with
  | false => rfl
  | true => exact absurd (startsTriple_le u hs) (by omega)

theorem collapse_nil (fuel : Nat) :
    replaceAllAux nlRunMatch ['\n', '\n'] fuel [] = [] := by
  cases fuel with
  | zero => rfl
  | succ f => simp [replaceAllAux, nlRunMatch_none [] (by simp [nlPre])]

theorem collapse_match (f : Nat) (s : Str) (h3 : 3 ≤ nlPre s) :
    replaceAllAux nlRunMatch ['\n', '\n'] (f + 1) s =
      '\n' :: '\n' :: replaceAllAux nlRunMatch ['\n', '\n'] f (s.dropWhile isNlB) := by
  simp only [replaceAllAux, nlRunMatch_some s h3]
  rfl

theorem collapse_copy (f : Nat) (c : Char) (cs : Str) (h3 : nlPre (c :: cs) < 3) :
    replaceAllAux nlRunMatch ['\n', '\n'] (f + 1) (c :: cs) =
      c :: replaceAllAux nlRunMatch ['\n', '\n'] f cs := by
  simp only [replaceAllAux, nlRunMatch_none _ h3]

/-- After collapsing, the leading newline run is the original one capped at
two. -/
theorem collapse_nlPre (fuel : Nat) (s : Str) (hf : s.length ≤ fuel) :
    nlPre (replaceAllAux nlRunMatch ['\n', '\n'] fuel s) = min (nlPre s) 2 := by
  induction fuel generalizing s with
  | zero =>
    have hnil : s = [] := List.eq_nil_of_length_eq_zero (by omega)
    subst hnil
    rfl
  | succ f ih =>
    by_cases h3 : 3 ≤ nlPre s
    · have hdl := dropWhile_len_nl s
      have hrec := ih (s.dropWhile isNlB) (by omega)
      rw [collapse_match f s h3, nlPre_cons, nlPre_cons]
      simp only [isNlB, beq_self_eq_true, if_true]
      rw [hrec, nlPre_dropWhile]
      omega
    · push_neg at h3
      cases s with
      | nil => rw [collapse_nil]; rfl
      | cons c cs =>
        have hlen : cs.length ≤ f := by simpa using hf
        have hrec := ih cs hlen
        rw [collapse_copy f c cs h3, nlPre_cons, nlPre_cons, hrec]
        rw [nlPre_cons] at h3
        cases hc : isNlB c with
        | false => simp
        | true =>
          rw [hc] at h3
          simp only [if_true] at h3 ⊢
          omega

/-- After collapsing, no three consecutive newlines remain. -/
theorem collapse_noTriple (fuel : Nat) (s : Str) (hf : s.length ≤ fuel) :
    hasTriple (replaceAllAux nlRunMatch ['\n', '\n'] fuel s) = false := by
  induction fuel generalizing s with
  | zero =>
    have hnil : s = [] := List.eq_nil_of_length_eq_zero (by omega)
    subst hnil
    rfl
  | succ f ih =>
    by_cases h3 : 3 ≤ nlPre s
    · have hdl := dropWhile_len_nl s
      have hrec := ih (s.dropWhile isNlB) (by omega)
      have hpre := collapse_nlPre f (s.dropWhile isNlB) (by omega)
      rw [nlPre_dropWhile] at hpre
      rw [collapse_match f s h3, hasTriple, hasTriple]
      rw [startsTriple_false _ (by rw [nlPre_cons, nlPre_cons]; simp [isNlB, hpre]),
        startsTriple_false _ (by rw [nlPre_cons]; simp [isNlB, hpre]), hrec]
      rfl
    · push_neg at h3
      cases s with
      | nil => rw [collapse_nil]; rfl
      | cons c cs =>
        have hlen : cs.length ≤ f := by simpa using hf
        have hrec := ih cs hlen
        have hpre := collapse_nlPre f cs hlen
        rw [collapse_copy f c cs h3, hasTriple, hrec]
        rw [startsTriple_false, Bool.false_or]
        rw [nlPre_cons]
        rw [nlPre_cons] at h3
        cases hc : isNlB c with
        | false => simp
        | true =>
          rw [hc] at h3
          rw [hpre]
          simp only [if_true] at h3 ⊢
          omega

theorem head?_dropWhile_not (p : Char → Bool) (l : Str) (c : Char)
    (h : (l.dropWhile p).head? = some c) : p c = false := by
  induction l with
  | nil => simp at h
  | cons a l ih =>
    rw [List.dropWhile_cons] at h
    by_cases hp : p a
    · rw [if_pos hp] at h
      exact ih h
    · rw [if_neg hp] at h
      have : a = c := by simpa using h
      subst this
      simpa using hp

theorem getLast?_cons_ne_nil (a : Char) (l : Str) (h : l ≠ []) :
    (a :: l).getLast? = l.getLast? := by
  cases l with
  | nil => exact absurd rfl h
  | cons b t => exact List.getLast?_cons_cons

theorem getLast?_dropWhile_eq (p : Char → Bool) (l : Str)
    (h : l.dropWhile p ≠ []) : (l.dropWhile p).getLast? = l.getLast? := by
  induction l with
  | nil => simp at h
  | cons a l ih =>
    rw [List.dropWhile_cons] at h ⊢
    by_cases hp : p a
    · rw [if_pos hp] at h ⊢
      have hl : l ≠ [] := by
        intro he
        rw [he] at h
        exact h rfl
      rw [ih h, getLast?_cons_ne_nil a l hl]
    · rw [if_neg hp]

theorem jsTrim_head (l : Str) (c : Char) (h : (jsTrim l).head? = some c) :
    isJsWsB c = false := by
  unfold jsTrim at h
  rw [List.head?_reverse] at h
  have hbne : (l.dropWhile isJsWsB).reverse.dropWhile isJsWsB ≠ [] := by
    intro he
    rw [he] at h
    simp at h
  rw [getLast?_dropWhile_eq _ _ hbne, List.getLast?_reverse] at h
  exact head?_dropWhile_not _ _ _ h

theorem jsTrim_last (l : Str) (c : Char) (h : (jsTrim l).getLast? = some c) :
    isJsWsB c = false := by
  unfold jsTrim at h
  rw [List.getLast?_reverse] at h
  exact head?_dropWhile_not _ _ _ h

theorem jsTrim_fix (l : Str)
    (h1 : ∀ c, l.head? = some c → isJsWsB c = false)
    (h2 : ∀ c, l.getLast? = some c → isJsWsB c = false) :
    jsTrim l = l := by
  have hd : l.dropWhile isJsWsB = l := by
    cases l with
    | nil => rfl
    | cons a t =>
      rw [List.dropWhile_cons, if_neg]
      simp [h1 a rfl]
  have hr : l.reverse.dropWhile isJsWsB = l.reverse := by
    cases hrev : l.reverse with
    | nil => rfl
    | cons a t =>
      rw [List.dropWhile_cons, if_neg]
      have hla : l.getLast? = some a := by
        rw [← List.head?_reverse, hrev]
        rfl
      simp [h2 a hla]
  unfold jsTrim
  rw [hd, hr, List.reverse_reverse]

theorem collapse_head? (fuel : Nat) (s : Str) (h0 : nlPre s = 0) (hf : s.length ≤ fuel) :
    (replaceAllAux nlRunMatch ['\n', '\n'] fuel s).head? = s.head? := by
  cases s with
  | nil => rw [collapse_nil]
  | cons c cs =>
    cases fuel with
    | zero => simp at hf
    | succ f =>
      rw [collapse_copy f c cs (by omega)]
      rfl

theorem collapse_ne_nil (fuel : Nat) (s : Str) (hf : s.length ≤ fuel) (hs : s ≠ []) :
    replaceAllAux nlRunMatch ['\n', '\n'] fuel s ≠ [] := by
  cases s with
  | nil => exact absurd rfl hs
  | cons c cs =>
    cases fuel with
    | zero => simp at hf
    | succ f =>
      by_cases h3 : 3 ≤ nlPre (c :: cs)
      · rw [collapse_match f _ h3]
        simp
      · rw [collapse_copy f c cs (by omega)]
        simp

theorem collapse_getLast? (fuel : Nat) (s : Str) (hf : s.length ≤ fuel)
    (h : ∀ c, s.getLast? = some c → isNlB c = false) :
    (replaceAllAux nlRunMatch ['\n', '\n'] fuel s).getLast? = s.getLast? := by
  induction fuel generalizing s with
  | zero =>
    have hnil : s = [] := List.eq_nil_of_length_eq_zero (by omega)
    subst hnil
    rfl
  | succ f ih =>
    cases s with
    | nil => rw [collapse_nil]
    | cons c cs =>
      by_cases h3 : 3 ≤ nlPre (c :: cs)
      · have hdl := dropWhile_len_nl (c :: cs)
        have hrne : (c :: cs).dropWhile isNlB ≠ [] := by
          intro he
          have hall := List.takeWhile_append_dropWhile isNlB (c :: cs)
          rw [he, List.append_nil] at hall
          obtain ⟨d, hd⟩ : ∃ d, (c :: cs).getLast? = some d := by
            cases hgl : (c :: cs).getLast? with
            | none => simp at hgl
            | some d => exact ⟨d, rfl⟩
          have hdmem : d ∈ c :: cs := by
            obtain ⟨hne, heq⟩ := List.mem_getLast?_eq_getLast (Option.mem_def.mpr hd)
            rw [heq]
            exact List.getLast_mem hne
          rw [← hall] at hdmem
          exact absurd (List.mem_takeWhile_imp hdmem) (by simp [h d hd])
        rw [collapse_match f _ h3]
        have hxne := collapse_ne_nil f ((c :: cs).dropWhile isNlB) (by omega) hrne
        rw [getLast?_cons_ne_nil _ _ (by simp), getLast?_cons_ne_nil _ _ hxne]
        rw [ih _ (by omega) ?htransfer]
        case htransfer =>
          intro d hd
          rw [getLast?_dropWhile_eq _ _ hrne] at hd
          exact h d hd
        exact getLast?_dropWhile_eq _ _ hrne
      · rw [collapse_copy f c cs (by omega)]
        cases cs with
        | nil => rw [collapse_nil]
        | cons b bs =>
          have hlen : (b :: bs).length ≤ f := by simpa using hf
          have hcsne : (b :: bs) ≠ [] := by simp
          have hxne := collapse_ne_nil f (b :: bs) hlen hcsne
          rw [getLast?_cons_ne_nil _ _ hxne, getLast?_cons_ne_nil _ _ hcsne]
          exact ih _ hlen (fun d hd => h d (by rw [getLast?_cons_ne_nil _ _ hcsne]; exact hd))

/-- For any input, the collapsed output contains no run of three newlines. -/
theorem collapse_trim_noTriple (u : Str) :
    hasTriple (replaceAll nlRunMatch "\n\n".data u) = false := by
  show hasTriple (replaceAllAux nlRunMatch "\n\n".data u.length u) = false
  rw [show "\n\n".data = ['\n', '\n'] from rfl]
  exact collapse_noTriple u.length u le_rfl

/-- Collapsing a trimmed string yields a trimmed string. -/
theorem collapse_preserves_trimmed (v : Str) :
    jsTrim (replaceAll nlRunMatch "\n\n".data (jsTrim v)) =
      replaceAll nlRunMatch "\n\n".data (jsTrim v) := by
  show jsTrim (replaceAllAux nlRunMatch "\n\n".data (jsTrim v).length (jsTrim v)) = _
  rw [show "\n\n".data = ['\n', '\n'] from rfl]
  have hnlws : ∀ d : Char, isNlB d = true → isJsWsB d = true := by
    intro d hd
    have : d = '\n' := by simpa [isNlB] using hd
    subst this
    rfl
  apply jsTrim_fix
  · intro c hc
    have h0 : nlPre (jsTrim v) = 0 := by
      cases hu : jsTrim v with
      | nil => rfl
      | cons a t =>
        rw [nlPre_cons]
        have hws : isJsWsB a = false := jsTrim_head v a (by rw [hu]; rfl)
        cases hna : isNlB a with
        | false => rfl
        | true => rw [hnlws a hna] at hws; exact absurd hws (by simp)
    rw [collapse_head? _ _ h0 le_rfl] at hc
    exact jsTrim_head v c hc
  · intro c hc
    rw [collapse_getLast? _ _ le_rfl ?hlast] at hc
    case hlast =>
      intro d hd
      have hws := jsTrim_last v d hd
      cases hna : isNlB d with
      | false => rfl
      | true => rw [hnlws d hna] at hws; exact absurd hws (by simp)
    exact jsTrim_last v c hc

/-- C8: `extractMessage` removes the recognised code/artifact blocks,
collapses every run of three or more newlines to one blank line, and
returns a trimmed string: on the concrete text
`"Here you go:\n\n<fenced block>\n\nDone!"` it returns exactly
`"Here you go:\n\nDone!"`, and for every input the result contains no
three consecutive newlines and is a `trim` fixpoint. -/
theorem extractMessage_clean :
    extractMessage ("Here you go:\n\n```js\nconsole.log(1)\n```\n\nDone!").data =
      ("Here you go:\n\nDone!").data ∧
    (∀ text : Str, hasTriple (extractMessage text) = false) ∧
    (∀ text : Str, jsTrim (extractMessage text) = extractMessage text) := by
  refine ⟨by decide, fun text => collapse_trim_noTriple _, fun text => collapse_preserves_trimmed _⟩

/-! ## Generic lemmas about the scanning primitives -/

theorem stripLit_self (lit s : Str) : stripLit lit (lit ++ s) = some s := by
  induction lit with
  | nil => rfl
  | cons p l ih => simp [stripLit, ih]

theorem ciEq_self (p : Char) : ciEq p p = true := by
  simp [ciEq]

theorem stripLitCi_self (lit s : Str) : stripLitCi lit (lit ++ s) = some s := by
  induction lit with
  | nil => rfl
  | cons p l ih => simp [stripLitCi, ciEq_self, ih]

theorem stripLit_length (lit : Str) : ∀ s r : Str,
    stripLit lit s = some r → r.length + lit.length = s.length := by
  induction lit with
  | nil => intro s r h; simp [stripLit] at h; simp [h]
  | cons p l ih =>
    intro s r h
    cases s with
    | nil => simp [stripLit] at h
    | cons c cs =>
      rw [stripLit] at h
      by_cases hc : c = p
      · rw [if_pos hc] at h
        have := ih cs r h
        simp
        omega
      · rw [if_neg hc] at h
        exact absurd h (by simp)

theorem stripLitCi_length (lit : Str) : ∀ s r : Str,
    stripLitCi lit s = some r → r.length + lit.length = s.length := by
  induction lit with
  | nil => intro s r h; simp [stripLitCi] at h; simp [h]
  | cons p l ih =>
    intro s r h
    cases s with
    | nil => simp [stripLitCi] at h
    | cons c cs =>
      rw [stripLitCi] at h
      by_cases hc : ciEq p c = true
      · rw [if_pos hc] at h
        have := ih cs r h
        simp
        omega
      · rw [if_neg hc] at h
        exact absurd h (by simp)

theorem splitFirstLitCi_length (lit : Str) : ∀ s pre rest : Str,
    splitFirstLitCi lit s = some (pre, rest) →
      pre.length + lit.length + rest.length = s.length := by
  intro s
  induction s with
  | nil =>
    intro pre rest h
    rw [splitFirstLitCi] at h
    cases hs : stripLitCi lit [] with
    | none => rw [hs] at h; simp at h
    | some r =>
      rw [hs] at h
      have hlen := stripLitCi_length lit [] r hs
      simp only [Option.some.injEq, Prod.mk.injEq] at h
      obtain ⟨h1, h2⟩ := h
      subst h1; subst h2
      simp only [List.length_nil] at hlen ⊢
      omega
  | cons c cs ih =>
    intro pre rest h
    rw [splitFirstLitCi] at h
    cases hs : stripLitCi lit (c :: cs) with
    | some r =>
      rw [hs] at h
      simp only [Option.some.injEq, Prod.mk.injEq] at h
      obtain ⟨h1, h2⟩ := h
      subst h1; subst h2
      have hlen := stripLitCi_length lit (c :: cs) r hs
      simp only [List.length_nil]
      omega
    | none =>
      rw [hs] at h
      cases hrec : splitFirstLitCi lit cs with
      | none => rw [hrec] at h; simp at h
      | some pr =>
        obtain ⟨p1, r1⟩ := pr
        rw [hrec] at h
        simp only [Option.some.injEq, Prod.mk.injEq] at h
        obtain ⟨h1, h2⟩ := h
        have hlen := ih p1 r1 hrec
        subst h1; subst h2
        simp only [List.length_cons] at hlen ⊢
        omega

theorem splitFirstLit_length (lit : Str) : ∀ s pre rest : Str,
    splitFirstLit lit s = some (pre, rest) →
      pre.length + lit.length + rest.length = s.length := by
  intro s
  induction s with
  | nil =>
    intro pre rest h
    rw [splitFirstLit] at h
    cases hs : stripLit lit [] with
    | none => rw [hs] at h; simp at h
    | some r =>
      rw [hs] at h
      have hlen := stripLit_length lit [] r hs
      simp only [Option.some.injEq, Prod.mk.injEq] at h
      obtain ⟨h1, h2⟩ := h
      subst h1; subst h2
      simp only [List.length_nil] at hlen ⊢
      omega
  | cons c cs ih =>
    intro pre rest h
    rw [splitFirstLit] at h
    cases hs : stripLit lit (c :: cs) with
    | some r =>
      rw [hs] at h
      simp only [Option.some.injEq, Prod.mk.injEq] at h
      obtain ⟨h1, h2⟩ := h
      subst h1; subst h2
      have hlen := stripLit_length lit (c :: cs) r hs
      simp only [List.length_nil]
      omega
    | none =>
      rw [hs] at h
      cases hrec : splitFirstLit lit cs with
      | none => rw [hrec] at h; simp at h
      | some pr =>
        obtain ⟨p1, r1⟩ := pr
        rw [hrec] at h
        simp only [Option.some.injEq, Prod.mk.injEq] at h
        obtain ⟨h1, h2⟩ := h
        have hlen := ih p1 r1 hrec
        subst h1; subst h2
        simp only [List.length_cons] at hlen ⊢
        omega

/-- The lazy split finds the first occurrence: if `lit` does not match at
any position strictly inside `body`, splitting `body ++ lit ++ rest` yields
`(body, rest)` (case-insensitive version). -/
theorem splitFirstLitCi_exact (lit : Str) (hne : lit ≠ []) (body rest : Str)
    (hin : ∀ u, u <:+ body → u ≠ [] → stripLitCi lit (u ++ (lit ++ rest)) = none) :
    splitFirstLitCi lit (body ++ (lit ++ rest)) = some (body, rest) := by
  induction body with
  | nil =>
    cases hl : lit with
    | nil => exact absurd hl hne
    | cons a l =>
      rw [← hl]
      show splitFirstLitCi lit (lit ++ rest) = some ([], rest)
      have : lit ++ rest = a :: (l ++ rest) := by rw [hl]; rfl
      rw [this, splitFirstLitCi, ← this, stripLitCi_self]
  | cons c b ih =>
    have hx := hin (c :: b) List.suffix_rfl (by simp)
    rw [List.cons_append] at hx
    rw [List.cons_append, splitFirstLitCi, hx,
      ih (fun u hu hne2 => hin u (hu.trans (List.suffix_cons c b)) hne2)]

/-- Exact-match version of `splitFirstLitCi_exact`. -/
theorem splitFirstLit_exact (lit : Str) (hne : lit ≠ []) (body rest : Str)
    (hin : ∀ u, u <:+ body → u ≠ [] → stripLit lit (u ++ (lit ++ rest)) = none) :
    splitFirstLit lit (body ++ (lit ++ rest)) = some (body, rest) := by
  induction body with
  | nil =>
    cases hl : lit with
    | nil => exact absurd hl hne
    | cons a l =>
      rw [← hl]
      show splitFirstLit lit (lit ++ rest) = some ([], rest)
      have : lit ++ rest = a :: (l ++ rest) := by rw [hl]; rfl
      rw [this, splitFirstLit, ← this, stripLit_self]
  | cons c b ih =>
    have hx := hin (c :: b) List.suffix_rfl (by simp)
    rw [List.cons_append] at hx
    rw [List.cons_append, splitFirstLit, hx,
      ih (fun u hu hne2 => hin u (hu.trans (List.suffix_cons c b)) hne2)]

theorem takeWhile_all_stop (q : Char → Bool) (a : Str) (c : Char) (b : Str)
    (ha : ∀ x ∈ a, q x = true) (hc : q c = false) :
    (a ++ c :: b).takeWhile q = a := by
  induction a with
  | nil => simp [List.takeWhile_cons, hc]
  | cons x a ih =>
    rw [List.cons_append, List.takeWhile_cons, ha x (by simp),
      ih (fun y hy => ha y (by simp [hy]))]
    simp

theorem dropWhile_all_stop (q : Char → Bool) (a : Str) (c : Char) (b : Str)
    (ha : ∀ x ∈ a, q x = true) (hc : q c = false) :
    (a ++ c :: b).dropWhile q = c :: b := by
  induction a with
  | nil => simp [List.dropWhile_cons, hc]
  | cons x a ih =>
    rw [List.cons_append, List.dropWhile_cons, if_pos (ha x (by simp))]
    exact ih (fun y hy => ha y (by simp [hy]))

/-! ### `findFirst` and `scanAll` stepping lemmas -/

theorem findFirst_head (mh : Str → Option α) (s : Str) (r : α) (hm : mh s = some r) :
    findFirst mh s = some r := by
  cases s <;> simp [findFirst, hm]

theorem findFirst_skip_all (mh : Str → Option α) (pre t : Str)
    (hfail : ∀ u, u <:+ pre → u ≠ [] → mh (u ++ t) = none) :
    findFirst mh (pre ++ t) = findFirst mh t := by
  induction pre with
  | nil => rfl
  | cons c p ih =>
    have hx := hfail (c :: p) List.suffix_rfl (by simp)
    rw [List.cons_append] at hx
    rw [List.cons_append, findFirst, hx]
    exact ih (fun u hu hne => hfail u (hu.trans (List.suffix_cons c p)) hne)

theorem findFirst_none (mh : Str → Option α) (s : Str)
    (hfail : ∀ u, u <:+ s → mh u = none) : findFirst mh s = none := by
  induction s with
  | nil => exact hfail [] List.suffix_rfl
  | cons c cs ih =>
    rw [findFirst, hfail (c :: cs) List.suffix_rfl]
    exact ih (fun u hu => hfail u (hu.trans (List.suffix_cons c cs)))

/-- A matcher that always consumes at least one character on success. -/
def Shrinking (mh : Str → Option (α × Str)) : Prop :=
  ∀ s a rest, mh s = some (a, rest) → rest.length < s.length

theorem scanAllAux_nil (mh : Str → Option (α × Str)) (hsh : Shrinking mh) (fuel : Nat) :
    scanAllAux mh fuel [] = [] := by
  cases fuel with
  | zero => rfl
  | succ f =>
    cases hm : mh [] with
    | none => simp [scanAllAux, hm]
    | some pr => exact absurd (hsh [] pr.1 pr.2 (by rw [hm])) (by simp)

theorem scanAllAux_fuel_eq (mh : Str → Option (α × Str)) (hsh : Shrinking mh) :
    ∀ (n fuel1 fuel2 : Nat) (s : Str), s.length ≤ n → s.length ≤ fuel1 → s.length ≤ fuel2 →
      scanAllAux mh fuel1 s = scanAllAux mh fuel2 s := by
  intro n
  induction n with
  | zero =>
    intro f1 f2 s h0 _ _
    have hnil : s = [] := List.eq_nil_of_length_eq_zero (by omega)
    subst hnil
    rw [scanAllAux_nil mh hsh, scanAllAux_nil mh hsh]
  | succ n ih =>
    intro f1 f2 s hn h1 h2
    cases s with
    | nil => rw [scanAllAux_nil mh hsh, scanAllAux_nil mh hsh]
    | cons c cs =>
      cases f1 with
      | zero => simp at h1
      | succ g1 =>
        cases f2 with
        | zero => simp at h2
        | succ g2 =>
          cases hm : mh (c :: cs) with
          | some pr =>
            have hlt := hsh _ pr.1 pr.2 (by rw [hm])
            simp only [scanAllAux, hm]
            have hlen : (c :: cs).length = cs.length + 1 := rfl
            rw [ih g1 g2 pr.2 (by omega) (by omega) (by omega)]
          | none =>
            simp only [scanAllAux, hm]
            have hlen : (c :: cs).length = cs.length + 1 := rfl
            exact ih g1 g2 cs (by omega) (by omega) (by omega)

theorem scanAll_cons_of_match (mh : Str → Option (α × Str)) (hsh : Shrinking mh)
    (s : Str) (a : α) (rest : Str) (hm : mh s = some (a, rest)) :
    scanAll mh s = a :: scanAll mh rest := by
  have hlt := hsh s a rest hm
  obtain ⟨m, hm'⟩ : ∃ m, s.length = m + 1 := ⟨s.length - 1, by omega⟩
  unfold scanAll
  rw [hm']
  simp only [scanAllAux, hm]
  rw [scanAllAux_fuel_eq mh hsh rest.length m rest.length rest le_rfl (by omega) le_rfl]

theorem scanAll_skip_all (mh : Str → Option (α × Str)) (pre t : Str)
    (hfail : ∀ u, u <:+ pre → u ≠ [] → mh (u ++ t) = none) :
    scanAll mh (pre ++ t) = scanAll mh t := by
  induction pre with
  | nil => rfl
  | cons c p ih =>
    rw [List.cons_append]
    have hstep : scanAll mh (c :: (p ++ t)) = scanAll mh (p ++ t) := by
      have hx := hfail (c :: p) List.suffix_rfl (by simp)
      rw [List.cons_append] at hx
      unfold scanAll
      show scanAllAux mh ((p ++ t).length + 1) (c :: (p ++ t)) = _
      simp only [scanAllAux, hx]
    rw [hstep]
    exact ih (fun u hu hne => hfail u (hu.trans (List.suffix_cons c p)) hne)

theorem scanAll_nil_of_fails (mh : Str → Option (α × Str)) (s : Str)
    (hfail : ∀ u, u <:+ s → u ≠ [] → mh u = none) : scanAll mh s = [] := by
  have h := scanAll_skip_all mh s []
  simp only [List.append_nil] at h
  rw [h (fun u hu hne => by simpa using hfail u hu hne)]
  rfl

/-! ## C3 — a well-formed bolt block with two file actions and one shell
action

The rendering functions below formalise "text containing one well-formed
structured-artifact block": an arbitrary prefix (without `<`), the
container with a title, two file actions, one shell action, and an
arbitrary suffix. -/

def renderFileAction (p c : Str) : Str :=
  "<boltAction type=\"file\" filePath=\"".data ++ p ++ "\">".data ++ c ++ "</boltAction>".data

def renderShellAction (c : Str) : Str :=
  "<boltAction type=\"shell\">".data ++ c ++ "</boltAction>".data

def renderArtifact (title body : Str) : Str :=
  "<boltArtifact title=\"".data ++ title ++ "\">".data ++ body ++ "</boltArtifact>".data

/-! ### Suffix decomposition helpers -/

theorem suffix_append_split {u a b : Str} (h : u <:+ a ++ b) :
    u <:+ b ∨ ∃ ua, ua <:+ a ∧ ua ≠ [] ∧ u = ua ++ b := by
  induction a with
  | nil => exact Or.inl (by simpa using h)
  | cons x a ih =>
    rw [List.cons_append] at h
    rcases List.suffix_cons_iff.mp h with he | hs
    · exact Or.inr ⟨x :: a, List.suffix_rfl, by simp, by simpa using he⟩
    · rcases ih hs with hb | ⟨ua, h1, h2, h3⟩
      · exact Or.inl hb
      · exact Or.inr ⟨ua, h1.trans (List.suffix_cons x a), h2, h3⟩

theorem suffix_head_mem {u a : Str} (h : u <:+ a) (x : Char) (xs : Str)
    (hx : u = x :: xs) : x ∈ a :=
  h.subset (by simp [hx])

/-- Suffixes of a chunk starting with `<` whose remaining characters avoid
`<`: either the whole chunk, or a suffix with a non-`<` head. -/
theorem suffix_lt_decomp {rest : Str} (hrest : '<' ∉ rest) {u : Str}
    (hu : u <:+ ('<' :: rest)) (hne : u ≠ []) :
    u = '<' :: rest ∨ ∃ x xs, u = x :: xs ∧ x ≠ '<' := by
  rcases List.suffix_cons_iff.mp hu with he | hs
  · exact Or.inl he
  · cases u with
    | nil => exact absurd rfl hne
    | cons x xs =>
      refine Or.inr ⟨x, xs, rfl, fun he2 => ?_⟩
      subst he2
      exact hrest (suffix_head_mem hs '<' xs rfl)

/-! ### Length bounds: the matchers always consume input -/

theorem dropWhile_length_le (q : Char → Bool) (s : Str) :
    (s.dropWhile q).length ≤ s.length :=
  (List.dropWhile_sublist q).length_le

theorem boltActionTail_le (t content rest : Str)
    (h : boltActionTail t = some (content, rest)) : rest.length ≤ t.length := by
  unfold boltActionTail at h
  cases hs : stripLit ">".data (t.dropWhile notGtB) with
  | none => rw [hs] at h; simp at h
  | some t2 =>
    rw [hs] at h
    have h1 := stripLit_length _ _ _ hs
    have h2 := splitFirstLitCi_length "</boltAction>".data t2 content rest h
    have h3 := dropWhile_length_le notGtB t
    have e1 : (">".data : Str).length = 1 := rfl
    have e2 : ("</boltAction>".data : Str).length = 13 := rfl
    omega

theorem boltActionGroup_le (s5 p content rest : Str)
    (h : boltActionGroup s5 = some (p, content, rest)) : rest.length ≤ s5.length := by
  unfold boltActionGroup at h
  split at h
  · exact absurd h (by simp)
  split at h
  · exact absurd h (by simp)
  next u1 h1 =>
    split at h
    · exact absurd h (by simp)
    split at h
    · exact absurd h (by simp)
    next u3 h2 =>
      split at h
      next ct rs h3 =>
        simp only [Option.some.injEq, Prod.mk.injEq] at h
        obtain ⟨_, _, h6⟩ := h
        subst h6
        have l1 := stripLitCi_length _ _ _ h1
        have l2 := stripLit_length _ _ _ h2
        have l3 := boltActionTail_le _ _ _ h3
        have l4 := dropWhile_length_le isJsWsB s5
        have l5 := dropWhile_length_le notQuoteB u1
        have e1 : ("filePath=\"".data : Str).length = 10 := rfl
        have e2 : ("\"".data : Str).length = 1 := rfl
        omega
      · exact absurd h (by simp)

theorem matchBoltActionAt_shrinking : Shrinking matchBoltActionAt := by
  intro s a rest h
  unfold matchBoltActionAt at h
  split at h
  · exact absurd h (by simp)
  next s1 h1 =>
    have l1 := stripLitCi_length _ _ _ h1
    have e1 : ("<boltAction".data : Str).length = 11 := rfl
    split at h
    · exact absurd h (by simp)
    split at h
    · exact absurd h (by simp)
    next s3 h2 =>
      have l2 := stripLitCi_length _ _ _ h2
      have l3 := dropWhile_length_le isJsWsB s1
      have e2 : ("type=\"".data : Str).length = 6 := rfl
      split at h
      · exact absurd h (by simp)
      split at h
      · exact absurd h (by simp)
      next s5 h3 =>
        have l4 := stripLit_length _ _ _ h3
        have l5 := dropWhile_length_le isWordB s3
        have e3 : ("\"".data : Str).length = 1 := rfl
        split at h
        next p content rs h4 =>
          simp only [Option.some.injEq, Prod.mk.injEq] at h
          obtain ⟨_, h6⟩ := h
          subst h6
          have l6 := boltActionGroup_le _ _ _ _ h4
          omega
        next h4 =>
          split at h
          next ct rs h5 =>
            simp only [Option.some.injEq, Prod.mk.injEq] at h
            obtain ⟨_, h6⟩ := h
            subst h6
            have l6 := boltActionTail_le _ _ _ h5
            omega
          · exact absurd h (by simp)

/-! ### Matcher failure at non-trigger characters -/

theorem matchBoltActionAt_head (c : Char) (cs : Str) (h : c ≠ '<') :
    matchBoltActionAt (c :: cs) = none := by
  simp [matchBoltActionAt, stripLitCi, ciEq, upAscii, downAscii, h]

theorem matchBoltArtifactAt_head (c : Char) (cs : Str) (h : c ≠ '<') :
    matchBoltArtifactAt (c :: cs) = none := by
  simp [matchBoltArtifactAt, stripLitCi, ciEq, upAscii, downAscii, h]

theorem matchLovableAt_head (c : Char) (cs : Str) (h : c ≠ '<') :
    matchLovableAt (c :: cs) = none := by
  simp [matchLovableAt, stripLitCi, ciEq, upAscii, downAscii, h]

theorem matchCursorAt_head (c : Char) (cs : Str) (h : c ≠ '`') :
    matchCursorAt (c :: cs) = none := by
  simp [matchCursorAt, stripLit, h]

theorem matchMdBlockAt_head (c : Char) (cs : Str) (h : c ≠ '`') :
    matchMdBlockAt (c :: cs) = none := by
  simp [matchMdBlockAt, stripLit, h]

theorem matchMdPathAt_head (c : Char) (cs : Str) (h : c ≠ '`') :
    matchMdPathAt (c :: cs) = none := by
  simp [matchMdPathAt, stripLit, h]

/-! ### `boltAction` matches on rendered actions -/

theorem matchBoltActionAt_file (p c t : Str) (hp : p ≠ [])
    (hpq : ∀ x ∈ p, notQuoteB x = true) (hcl : ∀ x ∈ c, x ≠ '<') :
    matchBoltActionAt (renderFileAction p c ++ t) =
      some (⟨"file".data, some p, c⟩, t) := by
  have hq : notQuoteB '"' = false := rfl
  have hspan1 : ∀ R, (p ++ '"' :: R).takeWhile notQuoteB = p :=
    fun R => takeWhile_all_stop notQuoteB p '"' R hpq hq
  have hspan2 : ∀ R, (p ++ '"' :: R).dropWhile notQuoteB = '"' :: R :=
    fun R => dropWhile_all_stop notQuoteB p '"' R hpq hq
  have hpe : p.isEmpty = false := by
    cases p
    · exact absurd rfl hp
    · rfl
  have hsplit : splitFirstLitCi ['<', '/', 'b', 'o', 'l', 't', 'A', 'c', 't', 'i', 'o', 'n', '>']
      (c ++ '<' :: '/' :: 'b' :: 'o' :: 'l' :: 't' :: 'A' :: 'c' :: 't' :: 'i' :: 'o' :: 'n' :: '>' :: t) =
      some (c, t) :=
    splitFirstLitCi_exact _ (by simp) c t (fun u hu hune => by
      cases u with
      | nil => exact absurd rfl hune
      | cons x xs =>
        have hx : x ∈ c := hu.subset (by simp)
        rw [List.cons_append]
        simp [stripLitCi, ciEq, upAscii, downAscii, hcl x hx])
  have e1 : isJsWsB ' ' = true := rfl
  have e2 : isJsWsB 't' = false := rfl
  have e3 : isJsWsB 'f' = false := rfl
  have w1 : isWordB 'f' = true := rfl
  have w2 : isWordB 'i' = true := rfl
  have w3 : isWordB 'l' = true := rfl
  have w4 : isWordB 'e' = true := rfl
  have w5 : isWordB '"' = false := rfl
  have g1 : notGtB '>' = false := rfl
  unfold renderFileAction matchBoltActionAt boltActionGroup boltActionTail
  simp only [List.cons_append, List.nil_append, List.append_assoc]
  simp [stripLitCi, stripLit, ciEq, upAscii, downAscii, List.takeWhile_cons,
    List.dropWhile_cons, e1, e2, e3, w1, w2, w3, w4, w5, g1, hspan1, hspan2, hpe, hsplit]

theorem matchBoltActionAt_shell (c t : Str) (hcl : ∀ x ∈ c, x ≠ '<') :
    matchBoltActionAt (renderShellAction c ++ t) =
      some (⟨"shell".data, none, c⟩, t) := by
  have hsplit : splitFirstLitCi ['<', '/', 'b', 'o', 'l', 't', 'A', 'c', 't', 'i', 'o', 'n', '>']
      (c ++ '<' :: '/' :: 'b' :: 'o' :: 'l' :: 't' :: 'A' :: 'c' :: 't' :: 'i' :: 'o' :: 'n' :: '>' :: t) =
      some (c, t) :=
    splitFirstLitCi_exact _ (by simp) c t (fun u hu hune => by
      cases u with
      | nil => exact absurd rfl hune
      | cons x xs =>
        have hx : x ∈ c := hu.subset (by simp)
        rw [List.cons_append]
        simp [stripLitCi, ciEq, upAscii, downAscii, hcl x hx])
  have e1 : isJsWsB ' ' = true := rfl
  have e2 : isJsWsB 't' = false := rfl
  have e4 : isJsWsB '>' = false := rfl
  have w1 : isWordB 's' = true := rfl
  have w2 : isWordB 'h' = true := rfl
  have w3 : isWordB 'e' = true := rfl
  have w4 : isWordB 'l' = true := rfl
  have w5 : isWordB '"' = false := rfl
  have g1 : notGtB '>' = false := rfl
  unfold renderShellAction matchBoltActionAt boltActionGroup boltActionTail
  simp only [List.cons_append, List.nil_append, List.append_assoc]
  simp [stripLitCi, stripLit, ciEq, upAscii, downAscii, List.takeWhile_cons,
    List.dropWhile_cons, e1, e2, e4, w1, w2, w3, w4, w5, g1, hsplit]

/-! ### The backtracking `[^>]*` of `boltArtifact` has a unique viable
split -/

/-- No suffix of the pattern `title="` that still contains `=` can match
`v ++ '"' :: X` when `v` avoids `=` and `"`: the pattern's `=` never finds
a counterpart. -/
theorem stripTitleFail :
    ∀ (v : Str), (∀ x ∈ v, x ≠ '=' ∧ x ≠ '"') → ∀ (X : Str) (lit : Str),
      lit ∈ [['t', 'i', 't', 'l', 'e', '=', '"'], ['i', 't', 'l', 'e', '=', '"'],
        ['t', 'l', 'e', '=', '"'], ['l', 'e', '=', '"'], ['e', '=', '"'], ['=', '"']] →
      stripLitCi lit (v ++ '"' :: X) = none := by
  intro v
  induction v with
  | nil =>
    intro _ X lit hlit
    rcases (by simpa using hlit :
        lit = ['t', 'i', 't', 'l', 'e', '=', '"'] ∨ lit = ['i', 't', 'l', 'e', '=', '"'] ∨
        lit = ['t', 'l', 'e', '=', '"'] ∨ lit = ['l', 'e', '=', '"'] ∨
        lit = ['e', '=', '"'] ∨ lit = ['=', '"']) with
      rfl | rfl | rfl | rfl | rfl | rfl <;>
      simp [stripLitCi, ciEq, upAscii, downAscii]
  | cons y v' ih =>
    intro hv X lit hlit
    obtain ⟨hy1, hy2⟩ := hv y (by simp)
    have hv' : ∀ x ∈ v', x ≠ '=' ∧ x ≠ '"' := fun x hx => hv x (by simp [hx])
    have hstep : ∀ (p : Char) (ps : Str),
        ps ∈ [['t', 'i', 't', 'l', 'e', '=', '"'], ['i', 't', 'l', 'e', '=', '"'],
          ['t', 'l', 'e', '=', '"'], ['l', 'e', '=', '"'], ['e', '=', '"'], ['=', '"']] →
        stripLitCi (p :: ps) ((y :: v') ++ '"' :: X) = none := by
      intro p ps hps
      rw [List.cons_append, stripLitCi]
      by_cases hcy : ciEq p y = true
      · rw [if_pos hcy]
        exact ih hv' X ps hps
      · rw [if_neg hcy]
    rcases (by simpa using hlit :
        lit = ['t', 'i', 't', 'l', 'e', '=', '"'] ∨ lit = ['i', 't', 'l', 'e', '=', '"'] ∨
        lit = ['t', 'l', 'e', '=', '"'] ∨ lit = ['l', 'e', '=', '"'] ∨
        lit = ['e', '=', '"'] ∨ lit = ['=', '"']) with
      rfl | rfl | rfl | rfl | rfl | rfl
    · exact hstep 't' _ (by simp)
    · exact hstep 'i' _ (by simp)
    · exact hstep 't' _ (by simp)
    · exact hstep 'l' _ (by simp)
    · exact hstep 'e' _ (by simp)
    · rw [List.cons_append, stripLitCi, if_neg]
      simp [ciEq, upAscii, downAscii]
      exact fun h => absurd h hy1

/-- Greedy backtracking selects the unique viable split: if the
continuation succeeds at `k0` and fails at every larger candidate, the
descending search returns the `k0` result. -/
theorem tryGreedyDesc_first (cont : Nat → Option α) (k0 : Nat) (r : α)
    (hsucc : cont k0 = some r) :
    ∀ m, k0 ≤ m → (∀ k, k0 < k → k ≤ m → cont k = none) →
      tryGreedyDesc cont m = some r := by
  intro m
  induction m with
  | zero =>
    intro hk _
    have h0 : k0 = 0 := by omega
    subst h0
    exact hsucc
  | succ m ih =>
    intro hk hfail
    by_cases he : k0 = m + 1
    · subst he
      unfold tryGreedyDesc
      rw [hsucc]
    · unfold tryGreedyDesc
      rw [hfail (m + 1) (by omega) le_rfl]
      exact ih (by omega) (fun k hk1 hk2 => hfail k hk1 (by omega))

theorem boltArtifactCont_none_of_title (u : Str)
    (h : stripLitCi "title=\"".data u = none) : boltArtifactCont u = none := by
  unfold boltArtifactCont
  rw [h]

/-- The scanner state after consuming the `<boltArtifact` literal of a
rendered container, in cons-normal form. -/
def artifactS1 (T body post : Str) : Str :=
  ' ' :: 't' :: 'i' :: 't' :: 'l' :: 'e' :: '=' :: '"' ::
    (T ++ '"' :: '>' ::
      (body ++ '<' :: '/' :: 'b' :: 'o' :: 'l' :: 't' :: 'A' :: 'r' :: 't' :: 'i' :: 'f' :: 'a' :: 'c' :: 't' :: '>' :: post))

theorem matchBoltArtifactAt_render (T body post : Str)
    (hT : ∀ x ∈ T, x ≠ '>' ∧ x ≠ '"' ∧ x ≠ '=')
    (hbody : ∀ u, u <:+ body → u ≠ [] →
      stripLitCi "</boltArtifact>".data
        (u ++ '<' :: '/' :: 'b' :: 'o' :: 'l' :: 't' :: 'A' :: 'r' :: 't' :: 'i' :: 'f' :: 'a' :: 'c' :: 't' :: '>' :: post) = none) :
    matchBoltArtifactAt (renderArtifact T body ++ post) = some ((T, body), post) := by
  have hstrip : stripLitCi "<boltArtifact".data (renderArtifact T body ++ post) =
      some (artifactS1 T body post) := by
    rw [show renderArtifact T body ++ post =
        "<boltArtifact".data ++ artifactS1 T body post from by
      unfold renderArtifact artifactS1
      simp [List.append_assoc]]
    exact stripLitCi_self _ _
  suffices htg : tryGreedyDesc (fun k => boltArtifactCont ((artifactS1 T body post).drop k))
      ((artifactS1 T body post).takeWhile notGtB).length = some ((T, body), post) by
    unfold matchBoltArtifactAt
    rw [hstrip]
    exact htg
  have hTg : ∀ x ∈ T, notGtB x = true := by
    intro x hx
    simp only [notGtB, bne_iff_ne, ne_eq]
    exact (hT x hx).1
  have hTq : ∀ x ∈ T, notQuoteB x = true := by
    intro x hx
    simp only [notQuoteB, bne_iff_ne, ne_eq]
    exact (hT x hx).2.1
  have g1 : notGtB ' ' = true := rfl
  have g2 : notGtB 't' = true := rfl
  have g3 : notGtB 'i' = true := rfl
  have g4 : notGtB 'l' = true := rfl
  have g5 : notGtB 'e' = true := rfl
  have g6 : notGtB '=' = true := rfl
  have g7 : notGtB '"' = true := rfl
  have g8 : notGtB '>' = false := rfl
  have hrunT : ∀ R : Str, (T ++ '"' :: '>' :: R).takeWhile notGtB = T ++ ['"'] := by
    intro R
    have base := takeWhile_all_stop notGtB (T ++ ['"']) '>' R
      (by
        intro x hx
        rcases List.mem_append.mp hx with hxa | hxb
        · exact hTg x hxa
        · simp at hxb
          subst hxb
          rfl)
      g8
    simpa [List.append_assoc] using base
  have hrun : ((artifactS1 T body post).takeWhile notGtB).length = T.length + 9 := by
    unfold artifactS1
    simp [List.takeWhile_cons, g1, g2, g3, g4, g5, g6, g7, hrunT]
  rw [hrun]
  have hspanQ1 : ∀ R : Str, (T ++ '"' :: R).takeWhile notQuoteB = T :=
    fun R => takeWhile_all_stop notQuoteB T '"' R hTq rfl
  have hspanQ2 : ∀ R : Str, (T ++ '"' :: R).dropWhile notQuoteB = '"' :: R :=
    fun R => dropWhile_all_stop notQuoteB T '"' R hTq rfl
  have hsplit : splitFirstLitCi ['<', '/', 'b', 'o', 'l', 't', 'A', 'r', 't', 'i', 'f', 'a', 'c', 't', '>']
      (body ++ '<' :: '/' :: 'b' :: 'o' :: 'l' :: 't' :: 'A' :: 'r' :: 't' :: 'i' :: 'f' :: 'a' :: 'c' :: 't' :: '>' :: post) =
      some (body, post) :=
    splitFirstLitCi_exact _ (by simp) body post hbody
  have hsucc : boltArtifactCont ((artifactS1 T body post).drop 1) = some ((T, body), post) := by
    show boltArtifactCont ('t' :: 'i' :: 't' :: 'l' :: 'e' :: '=' :: '"' ::
      (T ++ '"' :: '>' ::
        (body ++ '<' :: '/' :: 'b' :: 'o' :: 'l' :: 't' :: 'A' :: 'r' :: 't' :: 'i' :: 'f' :: 'a' :: 'c' :: 't' :: '>' :: post))) = _
    unfold boltArtifactCont
    simp [stripLitCi, stripLit, ciEq, upAscii, downAscii, List.takeWhile_cons,
      List.dropWhile_cons, g8, hspanQ1, hspanQ2, hsplit]
  refine tryGreedyDesc_first _ 1 ((T, body), post) hsucc (T.length + 9) (by omega) ?_
  intro k hk1 hk2
  apply boltArtifactCont_none_of_title
  by_cases hk7 : k ≤ 7
  · unfold artifactS1
    interval_cases k <;> simp [stripLitCi, ciEq, upAscii, downAscii]
  · have hk8 : 8 ≤ k := by omega
    have hdrop : (artifactS1 T body post).drop k =
        (T ++ '"' :: '>' ::
          (body ++ '<' :: '/' :: 'b' :: 'o' :: 'l' :: 't' :: 'A' :: 'r' :: 't' :: 'i' :: 'f' :: 'a' :: 'c' :: 't' :: '>' :: post)).drop (k - 8) := by
      rw [show artifactS1 T body post =
          [' ', 't', 'i', 't', 'l', 'e', '=', '"'] ++
            (T ++ '"' :: '>' ::
              (body ++ '<' :: '/' :: 'b' :: 'o' :: 'l' :: 't' :: 'A' :: 'r' :: 't' :: 'i' :: 'f' :: 'a' :: 'c' :: 't' :: '>' :: post)) from rfl]
      rw [List.drop_append_eq_append_drop, List.drop_eq_nil_of_le (by simp; omega)]
      simp
    rw [hdrop, List.drop_append_eq_append_drop]
    by_cases hkT : k - 8 ≤ T.length
    · rw [show k - 8 - T.length = 0 from by omega]
      exact stripTitleFail (T.drop (k - 8))
        (fun x hx => ⟨(hT x (List.drop_subset _ _ hx)).2.2, (hT x (List.drop_subset _ _ hx)).2.1⟩)
        _ _ (by simp)
    · rw [List.drop_eq_nil_of_le (by omega), show k - 8 - T.length = 1 from by omega]
      simp [stripLitCi, ciEq, upAscii, downAscii]

/-! ### No premature `</boltArtifact>` inside a rendered body -/

theorem closerArt_head (x : Char) (xs : Str) (h : x ≠ '<') :
    stripLitCi "</boltArtifact>".data (x :: xs) = none := by
  simp [stripLitCi, ciEq, upAscii, downAscii, h]

theorem closerArt_open (xs : Str) :
    stripLitCi "</boltArtifact>".data ('<' :: 'b' :: xs) = none := by
  simp [stripLitCi, ciEq, upAscii, downAscii]

theorem closerArt_close (xs : Str) :
    stripLitCi "</boltArtifact>".data
      ('<' :: '/' :: 'b' :: 'o' :: 'l' :: 't' :: 'A' :: 'c' :: xs) = none := by
  simp [stripLitCi, ciEq, upAscii, downAscii]

theorem fail_in_renderFile (p c : Str) (hp : '<' ∉ p) (hc : '<' ∉ c) (X : Str) :
    ∀ u, u <:+ renderFileAction p c → u ≠ [] →
      stripLitCi "</boltArtifact>".data (u ++ X) = none := by
  intro u hu hne
  have hshape : renderFileAction p c =
      '<' :: ("boltAction type=\"file\" filePath=\"".data ++
        (p ++ ('"' :: '>' ::
          (c ++ ['<', '/', 'b', 'o', 'l', 't', 'A', 'c', 't', 'i', 'o', 'n', '>'])))) := by
    unfold renderFileAction
    simp
  rw [hshape] at hu
  rcases List.suffix_cons_iff.mp hu with he | hs1
  · subst he
    rw [List.cons_append]
    exact closerArt_open _
  rcases suffix_append_split hs1 with h2 | ⟨ua, hua, huane, hueq⟩
  · rcases suffix_append_split h2 with h3 | ⟨up, hup, hupne, hueq⟩
    · rcases List.suffix_cons_iff.mp h3 with he | hs3
      · subst he
        rw [List.cons_append]
        exact closerArt_head '"' _ (by decide)
      rcases List.suffix_cons_iff.mp hs3 with he | hs4
      · subst he
        rw [List.cons_append]
        exact closerArt_head '>' _ (by decide)
      rcases suffix_append_split hs4 with h5 | ⟨uc, huc, hucne, hueq⟩
      · rcases suffix_lt_decomp (by decide) h5 hne with he | ⟨x, xs, hxe, hxne⟩
        · subst he
          rw [List.cons_append]
          exact closerArt_close _
        · subst hxe
          rw [List.cons_append]
          exact closerArt_head x _ hxne
      · subst hueq
        cases uc with
        | nil => exact absurd rfl hucne
        | cons x xs =>
          rw [List.cons_append, List.cons_append]
          exact closerArt_head x _ (fun he => hc (he ▸ suffix_head_mem huc x xs rfl))
    · subst hueq
      cases up with
      | nil => exact absurd rfl hupne
      | cons x xs =>
        rw [List.cons_append, List.cons_append]
        exact closerArt_head x _ (fun he => hp (he ▸ suffix_head_mem hup x xs rfl))
  · subst hueq
    cases ua with
    | nil => exact absurd rfl huane
    | cons x xs =>
      rw [List.cons_append, List.cons_append]
      refine closerArt_head x _ (fun he => ?_)
      subst he
      have hmem : '<' ∈ "boltAction type=\"file\" filePath=\"".data :=
        suffix_head_mem hua '<' xs rfl
      exact absurd hmem (by decide)

theorem fail_in_renderShell (c : Str) (hc : '<' ∉ c) (X : Str) :
    ∀ u, u <:+ renderShellAction c → u ≠ [] →
      stripLitCi "</boltArtifact>".data (u ++ X) = none := by
  intro u hu hne
  have hshape : renderShellAction c =
      '<' :: ("boltAction type=\"shell\">".data ++
        (c ++ ['<', '/', 'b', 'o', 'l', 't', 'A', 'c', 't', 'i', 'o', 'n', '>'])) := by
    unfold renderShellAction
    simp
  rw [hshape] at hu
  rcases List.suffix_cons_iff.mp hu with he | hs1
  · subst he
    rw [List.cons_append]
    exact closerArt_open _
  rcases suffix_append_split hs1 with h2 | ⟨ua, hua, huane, hueq⟩
  · rcases suffix_append_split h2 with h5 | ⟨uc, huc, hucne, hueq⟩
    · rcases suffix_lt_decomp (by decide) h5 hne with he | ⟨x, xs, hxe, hxne⟩
      · subst he
        rw [List.cons_append]
        exact closerArt_close _
      · subst hxe
        rw [List.cons_append]
        exact closerArt_head x _ hxne
    · subst hueq
      cases uc with
      | nil => exact absurd rfl hucne
      | cons x xs =>
        rw [List.cons_append, List.cons_append]
        exact closerArt_head x _ (fun he => hc (he ▸ suffix_head_mem huc x xs rfl))
  · subst hueq
    cases ua with
    | nil => exact absurd rfl huane
    | cons x xs =>
      rw [List.cons_append, List.cons_append]
      refine closerArt_head x _ (fun he => ?_)
      subst he
      have hmem : '<' ∈ "boltAction type=\"shell\">".data :=
        suffix_head_mem hua '<' xs rfl
      exact absurd hmem (by decide)

/-- The body of the C3 container: two file actions and one shell action in
declaration order, separated by newlines. -/
def renderBody (p1 c1 p2 c2 s : Str) : Str :=
  renderFileAction p1 c1 ++ '\n' :: (renderFileAction p2 c2 ++ '\n' :: renderShellAction s)

theorem fail_in_renderBody (p1 c1 p2 c2 s : Str) (hp1 : '<' ∉ p1) (hc1 : '<' ∉ c1)
    (hp2 : '<' ∉ p2) (hc2 : '<' ∉ c2) (hs : '<' ∉ s) (X : Str) :
    ∀ u, u <:+ renderBody p1 c1 p2 c2 s → u ≠ [] →
      stripLitCi "</boltArtifact>".data (u ++ X) = none := by
  intro u hu hne
  unfold renderBody at hu
  rcases suffix_append_split hu with h2 | ⟨ua, hua, huane, hueq⟩
  · rcases List.suffix_cons_iff.mp h2 with he | hs2
    · subst he
      exact closerArt_head '\n' _ (by decide)
    rcases suffix_append_split hs2 with h3 | ⟨ub, hub, hubne, hueq⟩
    · rcases List.suffix_cons_iff.mp h3 with he | hs3
      · subst he
        exact closerArt_head '\n' _ (by decide)
      · exact fail_in_renderShell s hs X u hs3 hne
    · subst hueq
      rw [List.append_assoc]
      exact fail_in_renderFile p2 c2 hp2 hc2 _ ub hub hubne
  · subst hueq
    rw [List.append_assoc]
    exact fail_in_renderFile p1 c1 hp1 hc1 _ ua hua huane

/-- The global `boltAction` scan over the rendered body yields exactly the
three declared actions in order. -/
theorem scanAll_renderBody (p1 c1 p2 c2 s : Str)
    (hp1ne : p1 ≠ []) (hp1q : ∀ x ∈ p1, notQuoteB x = true) (hc1 : ∀ x ∈ c1, x ≠ '<')
    (hp2ne : p2 ≠ []) (hp2q : ∀ x ∈ p2, notQuoteB x = true) (hc2 : ∀ x ∈ c2, x ≠ '<')
    (hs : ∀ x ∈ s, x ≠ '<') :
    scanAll matchBoltActionAt (renderBody p1 c1 p2 c2 s) =
      [⟨"file".data, some p1, c1⟩, ⟨"file".data, some p2, c2⟩,
        ⟨"shell".data, none, s⟩] := by
  have hskip : ∀ t : Str,
      scanAll matchBoltActionAt ('\n' :: t) = scanAll matchBoltActionAt t := by
    intro t
    have h := scanAll_skip_all matchBoltActionAt ['\n'] t (fun u hu hne => by
      rcases List.suffix_cons_iff.mp hu with he | hs2
      · subst he
        exact matchBoltActionAt_head '\n' _ (by decide)
      · exact absurd (List.suffix_nil.mp hs2) hne)
    simpa using h
  have hm3 := matchBoltActionAt_shell s [] hs
  rw [List.append_nil] at hm3
  unfold renderBody
  rw [scanAll_cons_of_match matchBoltActionAt matchBoltActionAt_shrinking _ _ _
    (matchBoltActionAt_file p1 c1 _ hp1ne hp1q hc1)]
  rw [hskip]
  rw [scanAll_cons_of_match matchBoltActionAt matchBoltActionAt_shrinking _ _ _
    (matchBoltActionAt_file p2 c2 _ hp2ne hp2q hc2)]
  rw [hskip]
  rw [scanAll_cons_of_match matchBoltActionAt matchBoltActionAt_shrinking _ _ _ hm3]
  rfl

/-- `parseBoltFormat` on a `<`-free prefix, a rendered container with two
file actions and one shell action, and an arbitrary suffix. -/
theorem parseBoltFormat_render (pre T p1 c1 p2 c2 s post : Str)
    (hpre : '<' ∉ pre)
    (hT : ∀ x ∈ T, x ≠ '>' ∧ x ≠ '"' ∧ x ≠ '=')
    (hp1ne : p1 ≠ []) (hp1q : ∀ x ∈ p1, notQuoteB x = true) (hp1lt : '<' ∉ p1)
    (hc1 : '<' ∉ c1)
    (hp2ne : p2 ≠ []) (hp2q : ∀ x ∈ p2, notQuoteB x = true) (hp2lt : '<' ∉ p2)
    (hc2 : '<' ∉ c2)
    (hslt : '<' ∉ s)
    (hp12 : p1 ≠ p2) :
    parseBoltFormat (pre ++ (renderArtifact T (renderBody p1 c1 p2 c2 s) ++ post)) =
      some ⟨[(p1, jsTrim c1), (p2, jsTrim c2)], [jsTrim s], some T⟩ := by
  have hmem : ∀ {l : Str}, '<' ∉ l → ∀ x ∈ l, x ≠ '<' :=
    fun hl x hx he => hl (he ▸ hx)
  have hrender := matchBoltArtifactAt_render T (renderBody p1 c1 p2 c2 s) post hT
    (fail_in_renderBody p1 c1 p2 c2 s hp1lt hc1 hp2lt hc2 hslt _)
  have hfind : findFirst matchBoltArtifactAt
      (pre ++ (renderArtifact T (renderBody p1 c1 p2 c2 s) ++ post)) =
      some ((T, renderBody p1 c1 p2 c2 s), post) := by
    rw [findFirst_skip_all matchBoltArtifactAt pre _ (fun u hu hne => by
      cases u with
      | nil => exact absurd rfl hne
      | cons x xs =>
        rw [List.cons_append]
        exact matchBoltArtifactAt_head x _
          (fun he => hpre (he ▸ suffix_head_mem hu x xs rfl)))]
    exact findFirst_head _ _ _ hrender
  have hscan := scanAll_renderBody p1 c1 p2 c2 s hp1ne hp1q (hmem hc1) hp2ne hp2q
    (hmem hc2) (hmem hslt)
  unfold parseBoltFormat
  rw [hfind]
  simp [hscan, mapSet, hp12]

set_option maxRecDepth 4096 in
/-- C3: for every text made of a `<`-free prefix, one well-formed
structured-artifact (`boltArtifact`) container holding two file actions
with distinct declared paths and one shell action, and an arbitrary
suffix, `parseArtifact` returns exactly two file entries keyed by the
declared paths with whitespace-trimmed content, and a one-element command
list, in declaration order. -/
theorem parseArtifact_two_files_one_command (pre T p1 c1 p2 c2 s post : Str)
    (hpre : '<' ∉ pre)
    (hT : ∀ x ∈ T, x ≠ '>' ∧ x ≠ '"' ∧ x ≠ '=')
    (hp1ne : p1 ≠ []) (hp1q : ∀ x ∈ p1, notQuoteB x = true) (hp1lt : '<' ∉ p1)
    (hc1 : '<' ∉ c1)
    (hp2ne : p2 ≠ []) (hp2q : ∀ x ∈ p2, notQuoteB x = true) (hp2lt : '<' ∉ p2)
    (hc2 : '<' ∉ c2)
    (hslt : '<' ∉ s)
    (hp12 : p1 ≠ p2) :
    parseArtifact (pre ++ (renderArtifact T (renderBody p1 c1 p2 c2 s) ++ post)) =
      ⟨[(p1, jsTrim c1), (p2, jsTrim c2)], [jsTrim s], some T⟩ := by
  have hb := parseBoltFormat_render pre T p1 c1 p2 c2 s post hpre hT hp1ne hp1q
    hp1lt hc1 hp2ne hp2q hp2lt hc2 hslt hp12
  unfold parseArtifact
  rw [hb]
  rfl

set_option maxRecDepth 4096 in
theorem parseArtifact_two_files_one_command_witness :
    parseArtifact ("Result:\n".data ++ (renderArtifact "Demo".data
        (renderBody "src/App.tsx".data " A ".data "src/index.css".data "B".data
          "npm install".data)
      ++ "\nend".data)) =
      ⟨[("src/App.tsx".data, "A".data), ("src/index.css".data, "B".data)],
        ["npm install".data], some "Demo".data⟩ := by
  rw [parseArtifact_two_files_one_command "Result:\n".data "Demo".data
    "src/App.tsx".data " A ".data "src/index.css".data "B".data
    "npm install".data "\nend".data
    (by decide) (by decide) (by decide) (by decide) (by decide) (by decide)
    (by decide) (by decide) (by decide) (by decide) (by decide) (by decide)]
  rfl

/-! ## C10 — plain fenced blocks with one shared language collapse onto the
generic fallback path

`renderMdBlock` is a plain fenced code block; `c10Text` is a fence-free
prefix, two such blocks with the same language separated by a newline-led
separator, and a suffix. -/

def renderMdBlock (lang c : Str) : Str :=
  "```".data ++ lang ++ '\n' :: (c ++ "```".data)

def c10Text (pre lang c1 midr c2 post : Str) : Str :=
  pre ++ (renderMdBlock lang c1 ++ (('\n' :: midr) ++ (renderMdBlock lang c2 ++ post)))

/-- The `containsSub` probes of `inferFilePath` that select a special path. -/
def inferPats : List Str :=
  ["export default function App".data, "createRoot".data, "ReactDOM.render".data,
   "@tailwind".data, ":root".data, "\"dependencies\"".data, "<!DOCTYPE html>".data,
   "<html".data, "defineConfig".data]

theorem wordChar_ne_tick {x : Char} (h : isWordB x = true) : x ≠ '`' :=
  fun he => by subst he; exact absurd h (by decide)

theorem stripLit_head_ne (p : Char) (l : Str) (c : Char) (cs : Str) (h : c ≠ p) :
    stripLit (p :: l) (c :: cs) = none := by
  simp [stripLit, h]

theorem stripTicks_yes (t : Str) : stripLit "```".data ('`' :: '`' :: '`' :: t) = some t :=
  stripLit_self "```".data t

theorem stripTicks_two (y : Char) (ys : Str) (hy : y ≠ '`') :
    stripLit "```".data ('`' :: '`' :: y :: ys) = none := by
  simp [stripLit, hy]

theorem stripTicks_one (y : Char) (ys : Str) (hy : y ≠ '`') :
    stripLit "```".data ('`' :: y :: ys) = none := by
  simp [stripLit, hy]

theorem stripTicks_nil2 : stripLit "```".data ['`', '`'] = none := by decide

theorem stripTicks_nil1 : stripLit "```".data ['`'] = none := by decide

theorem takeWhile_word_nl (t : Str) : List.takeWhile isWordB ('\n' :: t) = [] := by
  have h : isWordB '\n' = false := rfl
  simp [List.takeWhile_cons, h]

theorem matchCursorAt_strip (s : Str) (h : stripLit "```".data s = none) :
    matchCursorAt s = none := by
  unfold matchCursorAt
  rw [h]

theorem matchMdPathAt_strip (s : Str) (h : stripLit "```".data s = none) :
    matchMdPathAt s = none := by
  unfold matchMdPathAt
  rw [h]

theorem matchCursorAt_noword (s s1 : Str) (h : stripLit "```".data s = some s1)
    (hw : s1.takeWhile isWordB = []) : matchCursorAt s = none := by
  unfold matchCursorAt
  rw [h]
  simp [hw]

theorem matchMdPathAt_noword (s s1 : Str) (h : stripLit "```".data s = some s1)
    (hw : s1.takeWhile isWordB = []) : matchMdPathAt s = none := by
  unfold matchMdPathAt
  rw [h]
  simp [hw]

/-- At a full fence followed by a word run and a newline, the cursor
pattern fails: the character after the language is `\n`, never `:`. -/
theorem matchCursorAt_lang (lang : Str) (hlne : lang ≠ [])
    (hlw : ∀ x ∈ lang, isWordB x = true) (R : Str) :
    matchCursorAt ('`' :: '`' :: '`' :: (lang ++ '\n' :: R)) = none := by
  have hspan1 := takeWhile_all_stop isWordB lang '\n' R hlw rfl
  have hspan2 := dropWhile_all_stop isWordB lang '\n' R hlw rfl
  have hle : lang.isEmpty = false := by
    cases lang
    · exact absurd rfl hlne
    · rfl
  unfold matchCursorAt
  rw [stripTicks_yes]
  simp [hspan1, hspan2, hle, stripLit]

/-- At a full fence, the filepath-comment pattern fails when the line after
the language starts with none of the three comment markers. -/
theorem matchMdPathAt_lang (lang : Str) (hlne : lang ≠ [])
    (hlw : ∀ x ∈ lang, isWordB x = true) (R : Str)
    (h1 : stripLit ['/', '/'] R = none) (h2 : stripLit ['#'] R = none)
    (h3 : stripLit ['<', '!', '-', '-'] R = none) :
    matchMdPathAt ('`' :: '`' :: '`' :: (lang ++ '\n' :: R)) = none := by
  have hspan1 := takeWhile_all_stop isWordB lang '\n' R hlw rfl
  have hspan2 := dropWhile_all_stop isWordB lang '\n' R hlw rfl
  have hle : lang.isEmpty = false := by
    cases lang
    · exact absurd rfl hlne
    · rfl
  have g1 : stripLit "//".data R = none := h1
  have g2 : stripLit "#".data R = none := h2
  have g3 : stripLit "<!--".data R = none := h3
  unfold matchMdPathAt
  rw [stripTicks_yes]
  simp [hspan1, hspan2, hle, stripLit, h1, h2, h3, g1, g2, g3]

theorem comment_fail (ci rest : Str) (hcl : '<' ∉ ci)
    (hh : ∀ x ∈ ci.take 1, x ≠ '/' ∧ x ≠ '#') :
    stripLit ['/', '/'] (ci ++ '`' :: '`' :: '`' :: rest) = none ∧
    stripLit ['#'] (ci ++ '`' :: '`' :: '`' :: rest) = none ∧
    stripLit ['<', '!', '-', '-'] (ci ++ '`' :: '`' :: '`' :: rest) = none := by
  cases ci with
  | nil =>
    refine ⟨?_, ?_, ?_⟩ <;> exact stripLit_head_ne _ _ '`' _ (by decide)
  | cons x xs =>
    obtain ⟨h1, h2⟩ := hh x (by simp)
    have h3 : x ≠ '<' := fun he => hcl (he ▸ (by simp : x ∈ x :: xs))
    refine ⟨?_, ?_, ?_⟩
    · exact stripLit_head_ne _ _ x _ h1
    · exact stripLit_head_ne _ _ x _ h2
    · exact stripLit_head_ne _ _ x _ h3

/-- Fence + language + comment-free block content: the filepath-comment
pattern fails. -/
theorem matchMdPathAt_block (lang : Str) (hlne : lang ≠ [])
    (hlw : ∀ x ∈ lang, isWordB x = true) (ci rest : Str) (hcl : '<' ∉ ci)
    (hh : ∀ x ∈ ci.take 1, x ≠ '/' ∧ x ≠ '#') :
    matchMdPathAt ('`' :: '`' :: '`' ::
      (lang ++ '\n' :: (ci ++ '`' :: '`' :: '`' :: rest))) = none := by
  obtain ⟨d1, d2, d3⟩ := comment_fail ci rest hcl hh
  exact matchMdPathAt_lang lang hlne hlw _ d1 d2 d3

/-- Every nonempty suffix of the two-block text defeats both the cursor
pattern and the filepath-comment pattern. -/
theorem c10_walk (pre lang c1 midr c2 post : Str)
    (hpreb : '`' ∉ pre)
    (hlne : lang ≠ []) (hlw : ∀ x ∈ lang, isWordB x = true)
    (hc1b : '`' ∉ c1) (hc1l : '<' ∉ c1) (hc1h : ∀ x ∈ c1.take 1, x ≠ '/' ∧ x ≠ '#')
    (hmidb : '`' ∉ midr)
    (hc2b : '`' ∉ c2) (hc2l : '<' ∉ c2) (hc2h : ∀ x ∈ c2.take 1, x ≠ '/' ∧ x ≠ '#')
    (hpostb : '`' ∉ post) (hposth : ∀ x ∈ post.take 1, isWordB x = false) :
    ∀ u, u <:+ c10Text pre lang c1 midr c2 post → u ≠ [] →
      matchCursorAt u = none ∧ matchMdPathAt u = none := by
  obtain ⟨lx, lxs, hlangeq⟩ : ∃ x xs, lang = x :: xs := by
    cases lang with
    | nil => exact absurd rfl hlne
    | cons x xs => exact ⟨x, xs, rfl⟩
  subst hlangeq
  have hlx : lx ≠ '`' := wordChar_ne_tick (hlw lx (by simp))
  intro u hu hne
  rw [show c10Text pre (lx :: lxs) c1 midr c2 post =
      pre ++ ('`' :: '`' :: '`' :: ((lx :: lxs) ++ '\n' ::
        (c1 ++ '`' :: '`' :: '`' :: ('\n' ::
          (midr ++ '`' :: '`' :: '`' :: ((lx :: lxs) ++ '\n' ::
            (c2 ++ '`' :: '`' :: '`' :: post))))))) from by
    unfold c10Text renderMdBlock
    simp [List.append_assoc]] at hu
  rcases suffix_append_split hu with h1 | ⟨ua, hua, huane, hueq⟩
  · rcases List.suffix_cons_iff.mp h1 with he | h1a
    · subst he
      exact ⟨matchCursorAt_lang _ hlne hlw _,
        matchMdPathAt_block _ hlne hlw c1 _ hc1l hc1h⟩
    rcases List.suffix_cons_iff.mp h1a with he | h1b
    · subst he
      exact ⟨matchCursorAt_strip _ (stripTicks_two lx _ hlx),
        matchMdPathAt_strip _ (stripTicks_two lx _ hlx)⟩
    rcases List.suffix_cons_iff.mp h1b with he | h1c
    · subst he
      exact ⟨matchCursorAt_strip _ (stripTicks_one lx _ hlx),
        matchMdPathAt_strip _ (stripTicks_one lx _ hlx)⟩
    rcases suffix_append_split h1c with h2 | ⟨ul, hul, hulne, hueq⟩
    · rcases List.suffix_cons_iff.mp h2 with he | h2a
      · subst he
        exact ⟨matchCursorAt_head '\n' _ (by decide), matchMdPathAt_head '\n' _ (by decide)⟩
      rcases suffix_append_split h2a with h3 | ⟨uc, huc, hucne, hueq⟩
      · rcases List.suffix_cons_iff.mp h3 with he | h3a
        · subst he
          exact ⟨matchCursorAt_noword _ _ (stripTicks_yes _) (takeWhile_word_nl _),
            matchMdPathAt_noword _ _ (stripTicks_yes _) (takeWhile_word_nl _)⟩
        rcases List.suffix_cons_iff.mp h3a with he | h3b
        · subst he
          exact ⟨matchCursorAt_strip _ (stripTicks_two '\n' _ (by decide)),
            matchMdPathAt_strip _ (stripTicks_two '\n' _ (by decide))⟩
        rcases List.suffix_cons_iff.mp h3b with he | h3c
        · subst he
          exact ⟨matchCursorAt_strip _ (stripTicks_one '\n' _ (by decide)),
            matchMdPathAt_strip _ (stripTicks_one '\n' _ (by decide))⟩
        rcases List.suffix_cons_iff.mp h3c with he | h3d
        · subst he
          exact ⟨matchCursorAt_head '\n' _ (by decide), matchMdPathAt_head '\n' _ (by decide)⟩
        rcases suffix_append_split h3d with h4 | ⟨um, hum, humne, hueq⟩
        · rcases List.suffix_cons_iff.mp h4 with he | h4a
          · subst he
            exact ⟨matchCursorAt_lang _ hlne hlw _,
              matchMdPathAt_block _ hlne hlw c2 _ hc2l hc2h⟩
          rcases List.suffix_cons_iff.mp h4a with he | h4b
          · subst he
            exact ⟨matchCursorAt_strip _ (stripTicks_two lx _ hlx),
              matchMdPathAt_strip _ (stripTicks_two lx _ hlx)⟩
          rcases List.suffix_cons_iff.mp h4b with he | h4c
          · subst he
            exact ⟨matchCursorAt_strip _ (stripTicks_one lx _ hlx),
              matchMdPathAt_strip _ (stripTicks_one lx _ hlx)⟩
          rcases suffix_append_split h4c with h5 | ⟨ul2, hul2, hul2ne, hueq⟩
          · rcases List.suffix_cons_iff.mp h5 with he | h5a
            · subst he
              exact ⟨matchCursorAt_head '\n' _ (by decide), matchMdPathAt_head '\n' _ (by decide)⟩
            rcases suffix_append_split h5a with h6 | ⟨uc2, huc2, huc2ne, hueq⟩
            · rcases List.suffix_cons_iff.mp h6 with he | h6a
              · subst he
                have hw : post.takeWhile isWordB = [] := by
                  cases post with
                  | nil => rfl
                  | cons y ys =>
                    have hy : isWordB y = false := hposth y (by simp)
                    simp [List.takeWhile_cons, hy]
                exact ⟨matchCursorAt_noword _ _ (stripTicks_yes _) hw,
                  matchMdPathAt_noword _ _ (stripTicks_yes _) hw⟩
              rcases List.suffix_cons_iff.mp h6a with he | h6b
              · subst he
                cases post with
                | nil =>
                  exact ⟨matchCursorAt_strip _ stripTicks_nil2,
                    matchMdPathAt_strip _ stripTicks_nil2⟩
                | cons y ys =>
                  have hy : y ≠ '`' := fun he2 => hpostb (he2 ▸ (by simp : y ∈ y :: ys))
                  exact ⟨matchCursorAt_strip _ (stripTicks_two y _ hy),
                    matchMdPathAt_strip _ (stripTicks_two y _ hy)⟩
              rcases List.suffix_cons_iff.mp h6b with he | h6c
              · subst he
                cases post with
                | nil =>
                  exact ⟨matchCursorAt_strip _ stripTicks_nil1,
                    matchMdPathAt_strip _ stripTicks_nil1⟩
                | cons y ys =>
                  have hy : y ≠ '`' := fun he2 => hpostb (he2 ▸ (by simp : y ∈ y :: ys))
                  exact ⟨matchCursorAt_strip _ (stripTicks_one y _ hy),
                    matchMdPathAt_strip _ (stripTicks_one y _ hy)⟩
              cases u with
              | nil => exact absurd rfl hne
              | cons x xs =>
                have hx : x ≠ '`' := fun he2 => hpostb (he2 ▸ suffix_head_mem h6c x xs rfl)
                exact ⟨matchCursorAt_head x _ hx, matchMdPathAt_head x _ hx⟩
            · subst hueq
              cases uc2 with
              | nil => exact absurd rfl huc2ne
              | cons x xs =>
                have hx : x ≠ '`' := fun he2 => hc2b (he2 ▸ suffix_head_mem huc2 x xs rfl)
                exact ⟨matchCursorAt_head x _ hx, matchMdPathAt_head x _ hx⟩
          · subst hueq
            cases ul2 with
            | nil => exact absurd rfl hul2ne
            | cons x xs =>
              have hx : x ≠ '`' :=
                wordChar_ne_tick (hlw x (suffix_head_mem hul2 x xs rfl))
              exact ⟨matchCursorAt_head x _ hx, matchMdPathAt_head x _ hx⟩
        · subst hueq
          cases um with
          | nil => exact absurd rfl humne
          | cons x xs =>
            have hx : x ≠ '`' := fun he2 => hmidb (he2 ▸ suffix_head_mem hum x xs rfl)
            exact ⟨matchCursorAt_head x _ hx, matchMdPathAt_head x _ hx⟩
      · subst hueq
        cases uc with
        | nil => exact absurd rfl hucne
        | cons x xs =>
          have hx : x ≠ '`' := fun he2 => hc1b (he2 ▸ suffix_head_mem huc x xs rfl)
          exact ⟨matchCursorAt_head x _ hx, matchMdPathAt_head x _ hx⟩
    · subst hueq
      cases ul with
      | nil => exact absurd rfl hulne
      | cons x xs =>
        have hx : x ≠ '`' :=
          wordChar_ne_tick (hlw x (suffix_head_mem hul x xs rfl))
        exact ⟨matchCursorAt_head x _ hx, matchMdPathAt_head x _ hx⟩
  · subst hueq
    cases ua with
    | nil => exact absurd rfl huane
    | cons x xs =>
      have hx : x ≠ '`' := fun he2 => hpreb (he2 ▸ suffix_head_mem hua x xs rfl)
      exact ⟨matchCursorAt_head x _ hx, matchMdPathAt_head x _ hx⟩

theorem matchMdBlockAt_shrinking : Shrinking matchMdBlockAt := by
  intro s a rest h
  unfold matchMdBlockAt at h
  split at h
  · exact absurd h (by simp)
  next s1 h1 =>
    have l1 := stripLit_length _ _ _ h1
    have e1 : ("```".data : Str).length = 3 := rfl
    split at h
    · exact absurd h (by simp)
    split at h
    · exact absurd h (by simp)
    next s2 h2 =>
      have l2 := stripLit_length _ _ _ h2
      have l3 := dropWhile_length_le isWordB s1
      have e2 : ("\n".data : Str).length = 1 := rfl
      split at h
      next content rs h3 =>
        simp only [Option.some.injEq, Prod.mk.injEq] at h
        obtain ⟨_, h6⟩ := h
        subst h6
        have l4 := splitFirstLit_length _ _ _ _ h3
        omega
      · exact absurd h (by simp)

/-- A rendered plain fenced block matches the markdown-block pattern
exactly, capturing the language and the raw content. -/
theorem matchMdBlockAt_render (lang c t : Str) (hlne : lang ≠ [])
    (hlw : ∀ x ∈ lang, isWordB x = true) (hc : ∀ x ∈ c, x ≠ '`') :
    matchMdBlockAt (renderMdBlock lang c ++ t) = some ((lang, c), t) := by
  have hw : isWordB '\n' = false := rfl
  have hspan1 : ∀ R, (lang ++ '\n' :: R).takeWhile isWordB = lang :=
    fun R => takeWhile_all_stop isWordB lang '\n' R hlw hw
  have hspan2 : ∀ R, (lang ++ '\n' :: R).dropWhile isWordB = '\n' :: R :=
    fun R => dropWhile_all_stop isWordB lang '\n' R hlw hw
  have hle : lang.isEmpty = false := by
    cases lang
    · exact absurd rfl hlne
    · rfl
  have hsplit : splitFirstLit ['`', '`', '`'] (c ++ '`' :: '`' :: '`' :: t) = some (c, t) :=
    splitFirstLit_exact _ (by simp) c t (fun u hu hune => by
      cases u with
      | nil => exact absurd rfl hune
      | cons x xs =>
        have hx : x ∈ c := hu.subset (by simp)
        rw [List.cons_append]
        simp [stripLit, hc x hx])
  unfold renderMdBlock matchMdBlockAt
  simp only [List.cons_append, List.nil_append, List.append_assoc]
  simp [stripLit, hspan1, hspan2, hle, hsplit]

theorem renderMdBlock_no_lt (lang c : Str) (hll : '<' ∉ lang) (hcl : '<' ∉ c) :
    '<' ∉ renderMdBlock lang c := by
  intro h
  unfold renderMdBlock at h
  rcases List.mem_append.mp h with h | h
  · rcases List.mem_append.mp h with h | h
    · exact absurd h (by decide)
    · exact hll h
  rcases List.mem_cons.mp h with h | h
  · exact absurd h (by decide)
  rcases List.mem_append.mp h with h | h
  · exact hcl h
  · exact absurd h (by decide)

theorem c10_no_lt (pre lang c1 midr c2 post : Str) (hprel : '<' ∉ pre)
    (hlw : ∀ x ∈ lang, isWordB x = true) (hc1l : '<' ∉ c1) (hmidl : '<' ∉ midr)
    (hc2l : '<' ∉ c2) (hpostl : '<' ∉ post) :
    '<' ∉ c10Text pre lang c1 midr c2 post := by
  have hll : '<' ∉ lang := fun hx => absurd (hlw '<' hx) (by decide)
  intro h
  unfold c10Text at h
  rcases List.mem_append.mp h with h | h
  · exact hprel h
  rcases List.mem_append.mp h with h | h
  · exact renderMdBlock_no_lt lang c1 hll hc1l h
  rcases List.mem_append.mp h with h | h
  · rcases List.mem_cons.mp h with h | h
    · exact absurd h (by decide)
    · exact hmidl h
  rcases List.mem_append.mp h with h | h
  · exact renderMdBlock_no_lt lang c2 hll hc2l h
  · exact hpostl h

/-- When none of the content probes hits and no export declaration is
found, `inferFilePath` falls back to the generic path. -/
theorem inferFilePath_fallback (code lang : Str)
    (hpat : ∀ p ∈ inferPats, containsSub p code = false)
    (hexp : findFirst matchExportAt code = none) :
    inferFilePath code lang = "src/generated.".data ++ extOr lang "txt".data := by
  have h1 := hpat "export default function App".data (by simp [inferPats])
  have h2 := hpat "createRoot".data (by simp [inferPats])
  have h3 := hpat "ReactDOM.render".data (by simp [inferPats])
  have h4 := hpat "@tailwind".data (by simp [inferPats])
  have h5 := hpat ":root".data (by simp [inferPats])
  have h6 := hpat "\"dependencies\"".data (by simp [inferPats])
  have h7 := hpat "<!DOCTYPE html>".data (by simp [inferPats])
  have h8 := hpat "<html".data (by simp [inferPats])
  have h9 := hpat "defineConfig".data (by simp [inferPats])
  unfold inferFilePath
  rw [h1, h2, h3, h4, h5, h6, h7, h8, h9, hexp]
  simp

/-- The markdown-block scan of the two-block text yields both blocks in
order. -/
theorem parseMarkdownBlocks_c10 (pre lang c1 midr c2 post : Str)
    (hpreb : '`' ∉ pre) (hlne : lang ≠ []) (hlw : ∀ x ∈ lang, isWordB x = true)
    (hlskip : lang ∉ skippedLangs)
    (hc1b : '`' ∉ c1) (hmidb : '`' ∉ midr) (hc2b : '`' ∉ c2) (hpostb : '`' ∉ post)
    (hpp : inferFilePath c1 lang = inferFilePath c2 lang) :
    parseMarkdownBlocks (c10Text pre lang c1 midr c2 post) =
      some ⟨[(inferFilePath c2 lang, jsTrim c2)], [], none⟩ := by
  have hc1' : ∀ x ∈ c1, x ≠ '`' := fun x hx he => hc1b (he ▸ hx)
  have hc2' : ∀ x ∈ c2, x ≠ '`' := fun x hx he => hc2b (he ▸ hx)
  have hm1 := matchMdBlockAt_render lang c1
    (('\n' :: midr) ++ (renderMdBlock lang c2 ++ post)) hlne hlw hc1'
  have hm2 := matchMdBlockAt_render lang c2 post hlne hlw hc2'
  have hscan : scanAll matchMdBlockAt (c10Text pre lang c1 midr c2 post) =
      [(lang, c1), (lang, c2)] := by
    unfold c10Text
    rw [scanAll_skip_all matchMdBlockAt pre _ (fun u hu hne => by
      cases u with
      | nil => exact absurd rfl hne
      | cons x xs =>
        have hx : x ≠ '`' := fun he => hpreb (he ▸ suffix_head_mem hu x xs rfl)
        exact matchMdBlockAt_head x _ hx)]
    rw [scanAll_cons_of_match matchMdBlockAt matchMdBlockAt_shrinking _ _ _ hm1]
    rw [scanAll_skip_all matchMdBlockAt ('\n' :: midr) _ (fun u hu hne => by
      cases u with
      | nil => exact absurd rfl hne
      | cons x xs =>
        have hm : x ∈ '\n' :: midr := suffix_head_mem hu x xs rfl
        have hx : x ≠ '`' := by
          rcases List.mem_cons.mp hm with h | h
          · subst h; decide
          · exact fun he => hmidb (he ▸ h)
        exact matchMdBlockAt_head x _ hx)]
    rw [scanAll_cons_of_match matchMdBlockAt matchMdBlockAt_shrinking _ _ _ hm2]
    rw [scanAll_nil_of_fails matchMdBlockAt post (fun u hu hne => by
      cases u with
      | nil => exact absurd rfl hne
      | cons x xs =>
        have hx : x ≠ '`' := fun he => hpostb (he ▸ suffix_head_mem hu x xs rfl)
        exact matchMdBlockAt_head x _ hx)]
  unfold parseMarkdownBlocks
  rw [hscan]
  simp [mapSet, hpp, hlskip]

theorem parseBoltFormat_c10_none (pre lang c1 midr c2 post : Str)
    (hlt : '<' ∉ c10Text pre lang c1 midr c2 post) :
    parseBoltFormat (c10Text pre lang c1 midr c2 post) = none := by
  have hfind : findFirst matchBoltArtifactAt (c10Text pre lang c1 midr c2 post) = none :=
    findFirst_none _ _ (fun u hu => by
      cases u with
      | nil => rfl
      | cons x xs =>
        exact matchBoltArtifactAt_head x _ (fun he => hlt (he ▸ hu.subset (by simp))))
  unfold parseBoltFormat
  rw [hfind]

theorem parseLovableFormat_c10_none (pre lang c1 midr c2 post : Str)
    (hlt : '<' ∉ c10Text pre lang c1 midr c2 post) :
    parseLovableFormat (c10Text pre lang c1 midr c2 post) = none := by
  have hscan : scanAll matchLovableAt (c10Text pre lang c1 midr c2 post) = [] :=
    scanAll_nil_of_fails _ _ (fun u hu hne => by
      cases u with
      | nil => exact absurd rfl hne
      | cons x xs =>
        exact matchLovableAt_head x _ (fun he => hlt (he ▸ hu.subset (by simp))))
  simp [parseLovableFormat, hscan]

theorem parseCursorFormat_c10_none (pre lang c1 midr c2 post : Str)
    (hfail : ∀ u, u <:+ c10Text pre lang c1 midr c2 post → u ≠ [] →
      matchCursorAt u = none ∧ matchMdPathAt u = none) :
    parseCursorFormat (c10Text pre lang c1 midr c2 post) = none := by
  have hscan : scanAll matchCursorAt (c10Text pre lang c1 midr c2 post) = [] :=
    scanAll_nil_of_fails _ _ (fun u hu hne => (hfail u hu hne).1)
  simp [parseCursorFormat, hscan]

theorem parseMarkdownWithPath_c10_none (pre lang c1 midr c2 post : Str)
    (hfail : ∀ u, u <:+ c10Text pre lang c1 midr c2 post → u ≠ [] →
      matchCursorAt u = none ∧ matchMdPathAt u = none) :
    parseMarkdownWithPath (c10Text pre lang c1 midr c2 post) = none := by
  have hscan : scanAll matchMdPathAt (c10Text pre lang c1 midr c2 post) = [] :=
    scanAll_nil_of_fails _ _ (fun u hu hne => (hfail u hu hne).2)
  simp [parseMarkdownWithPath, hscan]

/-- C10: for every text made of a fence-free prefix, two plain fenced code
blocks declaring the same non-skipped language whose contents trigger none
of the content probes and contain no export declaration, a newline-led
separator and a fence-free suffix, `parseArtifact` returns exactly one
file entry: both blocks are assigned the single generic fallback path
determined by the language's extension, so the last block's trimmed
content silently overwrites the first. -/
theorem parseArtifact_md_blocks_collapse (pre lang c1 midr c2 post : Str)
    (hprel : '<' ∉ pre) (hpreb : '`' ∉ pre)
    (hlne : lang ≠ []) (hlw : ∀ x ∈ lang, isWordB x = true)
    (hlskip : lang ∉ skippedLangs)
    (hc1b : '`' ∉ c1) (hc1l : '<' ∉ c1) (hc1h : ∀ x ∈ c1.take 1, x ≠ '/' ∧ x ≠ '#')
    (hmidb : '`' ∉ midr) (hmidl : '<' ∉ midr)
    (hc2b : '`' ∉ c2) (hc2l : '<' ∉ c2) (hc2h : ∀ x ∈ c2.take 1, x ≠ '/' ∧ x ≠ '#')
    (hpostb : '`' ∉ post) (hpostl : '<' ∉ post)
    (hposth : ∀ x ∈ post.take 1, isWordB x = false)
    (hpat1 : ∀ p ∈ inferPats, containsSub p c1 = false)
    (hexp1 : findFirst matchExportAt c1 = none)
    (hpat2 : ∀ p ∈ inferPats, containsSub p c2 = false)
    (hexp2 : findFirst matchExportAt c2 = none) :
    parseArtifact (c10Text pre lang c1 midr c2 post) =
      ⟨[("src/generated.".data ++ extOr lang "txt".data, jsTrim c2)], [], none⟩ := by
  have hf1 := inferFilePath_fallback c1 lang hpat1 hexp1
  have hf2 := inferFilePath_fallback c2 lang hpat2 hexp2
  have hpp : inferFilePath c1 lang = inferFilePath c2 lang := by rw [hf1, hf2]
  have hmd := parseMarkdownBlocks_c10 pre lang c1 midr c2 post hpreb hlne hlw hlskip
    hc1b hmidb hc2b hpostb hpp
  rw [hf2] at hmd
  have hlt := c10_no_lt pre lang c1 midr c2 post hprel hlw hc1l hmidl hc2l hpostl
  have hwalk := c10_walk pre lang c1 midr c2 post hpreb hlne hlw hc1b hc1l hc1h
    hmidb hc2b hc2l hc2h hpostb hposth
  have hbolt := parseBoltFormat_c10_none pre lang c1 midr c2 post hlt
  have hlov := parseLovableFormat_c10_none pre lang c1 midr c2 post hlt
  have hcur := parseCursorFormat_c10_none pre lang c1 midr c2 post hwalk
  have hmdp := parseMarkdownWithPath_c10_none pre lang c1 midr c2 post hwalk
  unfold parseArtifact
  rw [hbolt, hlov, hcur, hmdp, hmd]
  rfl

set_option maxRecDepth 8192 in
theorem parseArtifact_md_blocks_collapse_witness :
    parseArtifact (c10Text "Intro\n".data "js".data "const x = 1\n".data "mid\n".data
      "let y = 2\n".data "\nOutro".data) =
      ⟨[("src/generated.js".data, "let y = 2".data)], [], none⟩ := by
  rw [parseArtifact_md_blocks_collapse "Intro\n".data "js".data "const x = 1\n".data
    "mid\n".data "let y = 2\n".data "\nOutro".data
    (by decide) (by decide) (by decide) (by decide) (by decide)
    (by decide) (by decide) (by decide) (by decide) (by decide)
    (by decide) (by decide) (by decide) (by decide) (by decide)
    (by decide) (by decide) (by decide) (by decide) (by decide)]
  rfl

end Thunder
